import Mathlib

/-!
Verification of the NexusMap sync engine (`src/desktop/src-tauri/src/sync.rs`).

This file gives a shallow embedding of the synchronization engine: the mapping
store, the folder path resolver, the push entry point `sync_one_path`, the pull
entry point `sync_pull_once`, the 401-retry wrapper `send_with_refresh`, and the
BFS `compute_subtree_folder_ids`, together with theorems about the spec's claims.

Modelling conventions, fixed once for the whole file:

* Machine-level externals of the Rust code are parameters of the model:
  `sha : String → String` stands for `sha256_hex` (the sha2 crate),
  `detectKind : String → String` stands for `detect_kind` (whose substring scan
  and serde-JSON parse no claim depends on), and `clock : Nat → String` with a
  threaded tick counter stands for the successive `Utc::now()` readings.
* `HashMap` values are embedded as association lists with most-recent-insert
  lookup (`ainsert` removes the shadowed key, so iteration visits each key once,
  as HashMap iteration does; iteration order is the list order).
* Byte strings are embedded as `String`; `String::from_utf8_lossy` is the
  identity on them.
* Filesystem paths are component lists; relative POSIX paths are the
  slash-joined strings the Rust code builds with `to_rel_posix`.
* HTTP transport is an environment of response functions; transport-level
  failures (connection errors, non-2xx statuses) abort a Rust call via `?` and
  are not modelled except in the `send_with_refresh` model, where statuses are
  explicit because the claim is about them.
-/

set_option linter.unusedVariables false

namespace Diregram

/-! ## Path and string primitives used by sync.rs -/

/-- Rust `str::split('/')` at the character level: split a character list at
every slash, keeping empty pieces. -/
def splitChars : List Char → List (List Char)
  | [] => [[]]
  | c :: cs =>
    match splitChars cs with
    | [] => [[]]
    | p :: ps => if c = '/' then [] :: p :: ps else (c :: p) :: ps

/-- Rust `rel.split('/')`: the slash-separated pieces of a string. -/
def strSplitSlash (s : String) : List String :=
  (splitChars s.data).map fun l => String.mk l

/-- Rust `rel.split('/').filter(|s| !s.is_empty())`: the non-empty slash
segments of a relative path. -/
def segsOf (s : String) : List String :=
  (strSplitSlash s).filter fun t => t ≠ ""

/-- Join path segments with `/`, as `to_rel_posix`'s `join("/")` does. -/
def joinSlash : List String → String
  | [] => ""
  | [x] => x
  | x :: y :: ys => x ++ "/" ++ joinSlash (y :: ys)

/-- Rust `Path::new(rel).parent().and_then(to_str).unwrap_or("")` followed by
the `"." → ""` fixup, for the slash-joined relative paths sync.rs builds: drop
the last segment and re-join. -/
def parentOfPath (rel : String) : String :=
  joinSlash (segsOf rel).dropLast

/-- Rust `Path::file_name` for the relative paths in play: the last non-empty
slash segment (trailing separators are ignored). -/
def lastSegOf (rel : String) : Option String :=
  (segsOf rel).getLast?

/-- Split a reversed character list at the first `'.'`: returns the characters
before it (the reversed extension) and after it (the reversed stem). -/
def revSplitDot : List Char → Option (List Char × List Char)
  | [] => none
  | c :: cs =>
    if c = '.' then some ([], cs)
    else (revSplitDot cs).map fun p => (c :: p.1, p.2)

/-- Rust `Path::file_stem` / `Path::extension` on a file name: split at the
last dot, with no extension when the dot is the first character. -/
def splitExt (name : String) : String × Option String :=
  match revSplitDot name.data.reverse with
  | some (re, rst) =>
    if rst = [] then (name, none)
    else (String.mk rst.reverse, some (String.mk re.reverse))
  | none => (name, none)

/-- Rust `Path::file_stem` on a relative path. -/
def fileStemOf (rel : String) : Option String :=
  (lastSegOf rel).map fun n => (splitExt n).1

/-- Rust `Path::extension` on a relative path. -/
def extensionOf (rel : String) : Option String :=
  (lastSegOf rel).bind fun n => (splitExt n).2

/-- Rust `PathBuf::with_file_name`: replace the last segment. -/
def withFileName (rel : String) (name : String) : String :=
  joinSlash ((segsOf rel).dropLast ++ [name])

/-- Rust `s.trim().is_empty()`: every character is whitespace. -/
def strAllWs (s : String) : Bool :=
  s.data.all fun c => c.isWhitespace

/-- Lexicographic order on character lists, Rust's `Ord` for `String`. -/
def charListLtB : List Char → List Char → Bool
  | [], [] => false
  | [], _ :: _ => true
  | _ :: _, [] => false
  | a :: as, b :: bs => if a < b then true else if b < a then false else charListLtB as bs

/-- Rust `String` comparison `<`, used for the ISO-8601 timestamp ordering. -/
def strLtB (a b : String) : Bool :=
  charListLtB a.data b.data

/-- Rust `str::starts_with` for a string literal pattern. -/
def strStartsWith (s pat : String) : Bool :=
  pat.data.isPrefixOf s.data

/-- Display of `root.join(rel)` as the event detail strings print it. -/
def pathDisplay (vaultPath rel : String) : String :=
  if rel = "" then vaultPath else vaultPath ++ "/" ++ rel

/-! ## Association lists standing for the HashMaps of the mapping record -/

/-- HashMap lookup. -/
def alookup {β : Type} (k : String) : List (String × β) → Option β
  | [] => none
  | (k2, v) :: rest => if k = k2 then some v else alookup k rest

/-- HashMap remove: drop the key. -/
def aremove {β : Type} (k : String) (m : List (String × β)) : List (String × β) :=
  m.filter fun p => p.1 ≠ k

/-- HashMap insert: the new binding shadows (replaces) any old one. -/
def ainsert {β : Type} (k : String) (v : β) (m : List (String × β)) : List (String × β) :=
  (k, v) :: aremove k m

/-! ## Data model (`SyncMappingV1` and friends from sync.rs) -/

/-- Per-file entry of the mapping record. -/
structure FileMappingV1 where
  file_id : String
  folder_id : String
  kind : String
  local_hash : String
  remote_updated_at : String
deriving DecidableEq

/-- Per-resource entry of the mapping record. -/
structure ResourceMappingV1 where
  resource_id : String
  local_hash : String
  remote_updated_at : String
deriving DecidableEq

/-- The durable mapping record persisted as `.nexusmap/sync.json`. -/
structure SyncMappingV1 where
  version : Nat
  vault_path : String
  project_folder_id : String
  created_at : String
  updated_at : String
  last_pull_at : String
  last_rag_export_at : String
  folders : List (String × String)
  files : List (String × FileMappingV1)
  resources : List (String × ResourceMappingV1)
deriving DecidableEq

/-- The authentication blob consumed by push/pull. -/
structure SupabaseAuth where
  supabase_url : String
  supabase_anon_key : String
  access_token : String
  refresh_token : Option String
  owner_id : String
deriving DecidableEq

/-- Summary counters returned by push/pull operations. -/
structure SyncSummary where
  folders_created : Nat
  folders_reused : Nat
  files_created : Nat
  files_updated : Nat
  files_deleted : Nat
  files_skipped : Nat
  resources_deleted : Nat
  errors : List String
deriving DecidableEq

/-- `SyncSummary::default()`. -/
def emptySummary : SyncSummary :=
  ⟨0, 0, 0, 0, 0, 0, 0, []⟩

/-- One line of `events.jsonl`. -/
structure SyncEvent where
  ts : String
  kind : String
  path : String
  detail : String
deriving DecidableEq

/-- One archived file under `.nexusmap/trash/<ts>/<rel>`. -/
structure TrashEntry where
  ts : String
  rel : String
  content : String
deriving DecidableEq

/-- A remote folder row (`id, parent_id, name`). -/
structure FolderNode where
  id : String
  parent_id : Option String
  name : String
deriving DecidableEq

/-- A remote file row as returned by create/update (`FileRow` in sync.rs). -/
structure FileRowR where
  id : String
  updated_at : Option String
deriving DecidableEq

/-- The row fetched by `fetch_file_backup` (`RemoteFileBackupRow`). -/
structure BackupRow where
  id : String
  name : String
  content : Option String
deriving DecidableEq

/-- A remote file row as fetched by pull (`RemoteFileRow`). -/
structure RemoteFileRow where
  id : String
  name : String
  folder_id : Option String
  content : Option String
  updated_at : Option String
  kind : Option String
deriving DecidableEq

/-- A remote resource row as fetched by pull (`RemoteResourceRow`); its JSON
`source` value is abstracted to the only field the code reads, `source.type`. -/
structure RemoteResourceRow where
  id : String
  name : String
  markdown : String
  updated_at : Option String
  sourceType : Option String
deriving DecidableEq

/-- The local state an engine call can see and mutate: the vault's files (by
relative POSIX path) and directories, the trash archive, the event log, the
persisted mapping record, and the clock tick counter. -/
structure World where
  fsFiles : List (String × String)
  fsDirs : List String
  trash : List TrashEntry
  events : List SyncEvent
  mappingDisk : Option SyncMappingV1
  tick : Nat
deriving DecidableEq

/-! ## Remote client: `send_with_refresh` and `refresh_access_token` -/

/-- An HTTP response: status code plus (opaque) body. -/
structure HttpResp where
  status : Nat
  body : String
deriving DecidableEq

/-- `reqwest::StatusCode::is_success()`. -/
def isSuccessStatus (s : Nat) : Bool :=
  200 ≤ s && s < 300

/-- The decoded body of the token-refresh POST (`RefreshTokenResponse`). -/
structure RefreshTokenResponse where
  access_token : String
  refresh_token : Option String
deriving DecidableEq

/-- One network action of the retry wrapper, recorded in issue order. -/
inductive NetAction where
  | send (token : String)
  | refreshPost (refreshToken : String)
deriving DecidableEq

/-- Whether a network action is a request send (as opposed to a refresh POST). -/
def NetAction.isSend : NetAction → Bool
  | .send _ => true
  | .refreshPost _ => false

/-- The server as the retry wrapper sees it: the response to the original
request as a function of the bearer token used, the caller-supplied `parse`
closure, and the response to (and JSON decode of) the refresh POST. -/
structure SendEnv (α : Type) where
  send : String → HttpResp
  parse : HttpResp → Except String α
  refreshResp : String → HttpResp
  refreshDecode : String → Except String RefreshTokenResponse

/-- `refresh_access_token`: POST the stored refresh token; on a 2xx response,
decode it and update the in-memory access/refresh tokens. Returns the updated
auth and the network actions issued. -/
def refreshAccessToken {α : Type} (env : SendEnv α) (auth : SupabaseAuth) :
    Except String SupabaseAuth × List NetAction :=
  match auth.refresh_token with
  | none => (.error "missing refresh_token (cannot refresh)", [])
  | some rt =>
    let res := env.refreshResp rt
    if isSuccessStatus res.status then
      match env.refreshDecode res.body with
      | .error e => (.error e, [.refreshPost rt])
      | .ok json =>
        let auth2 : SupabaseAuth :=
          { auth with
            access_token := json.access_token
            refresh_token := match json.refresh_token with
              | some rt2 => some rt2
              | none => auth.refresh_token }
        (.ok auth2, [.refreshPost rt])
    else
      (.error ("token refresh failed: HTTP " ++ toString res.status), [.refreshPost rt])

/-- `send_with_refresh`: send the request with the current access token; on a
401, refresh once and retry the request once, returning the retry's parse
result whatever its status; on any other status, parse the first response.
Returns the result, the final auth state, and the network actions issued. -/
def sendWithRefresh {α : Type} (env : SendEnv α) (auth : SupabaseAuth) :
    Except String α × SupabaseAuth × List NetAction :=
  let res := env.send auth.access_token
  if res.status = 401 then
    match refreshAccessToken env auth with
    | (.error e, tr) => (.error e, auth, .send auth.access_token :: tr)
    | (.ok auth2, tr) =>
      let res2 := env.send auth2.access_token
      (env.parse res2, auth2, .send auth.access_token :: tr ++ [.send auth2.access_token])
  else
    (env.parse res, auth, [.send auth.access_token])

/-! ## `compute_subtree_folder_ids`: the pull engine's folder BFS -/

/-- The `children` adjacency the BFS builds: the ids of the folder rows whose
`parent_id` is `some a`, in row order. -/
def childIds (folders : List FolderNode) (a : String) : List String :=
  (folders.filter fun f => f.parent_id = some a).map fun f => f.id

/-- The worklist loop of `compute_subtree_folder_ids`, indexed by fuel: `out`
starts as `[project_folder_id]` and every processed element appends its
children; there is no visited set. `none` means the fuel ran out with the
index still behind the worklist. -/
def subtreeLoop (folders : List FolderNode) : Nat → List String → Nat → Option (List String)
  | 0, out, i => if i < out.length then none else some out
  | fuel + 1, out, i =>
    if h : i < out.length then
      subtreeLoop folders fuel (out ++ childIds folders (out.get ⟨i, h⟩)) (i + 1)
    else some out

/-- `compute_subtree_folder_ids`, fuel-indexed: the Rust loop has no fuel, so
termination statements quantify over it. -/
def computeSubtreeFolderIds (project_folder_id : String) (folders : List FolderNode)
    (fuel : Nat) : Option (List String) :=
  subtreeLoop folders fuel [project_folder_id] 0

/-- The child-edge relation induced by the remote folder rows. -/
abbrev FolderEdge (folders : List FolderNode) (a b : String) : Prop :=
  b ∈ childIds folders a

/-- Reachability from the project root along child edges. -/
abbrev FolderReach (folders : List FolderNode) (pid x : String) : Prop :=
  Relation.ReflTransGen (FolderEdge folders) pid x

/-- The acyclicity precondition: no folder reachable from the project root sits
on a (non-trivial) parent/child cycle. -/
def AcyclicFrom (folders : List FolderNode) (pid : String) : Prop :=
  ∀ x, FolderReach folders pid x → ¬ Relation.TransGen (FolderEdge folders) x x

/-- The path-counting measure used to bound the worklist: at depth budget
`k + 1`, one unit for the node plus the measures of its children at budget
`k`. On an acyclic subtree this stabilizes and counts the paths out of `x`. -/
def wMeasure (folders : List FolderNode) : Nat → String → Nat
  | 0, _ => 1
  | k + 1, x => 1 + ((childIds folders x).map (wMeasure folders k)).sum

/-- All child chains out of `x` have at most `k` edges. -/
def BoundedChains (folders : List FolderNode) (k : Nat) (x : String) : Prop :=
  ∀ l, List.Chain (FolderEdge folders) x l → l.length ≤ k

/-- The worklist measure: the summed `wMeasure` of the unprocessed suffix. -/
def phiMeasure (folders : List FolderNode) (D : Nat) (out : List String) (i : Nat) : Nat :=
  ((out.drop i).map (wMeasure folders D)).sum

/-- A concrete cyclic folder list: `P → A → B → A → …`. The row `⟨A, P⟩` makes
`A` reachable from the root, and the rows `⟨B, A⟩`, `⟨A, B⟩` form a cycle. -/
def cyclicFolders : List FolderNode :=
  [⟨"A", some "P", "a"⟩, ⟨"B", some "A", "b"⟩, ⟨"A", some "B", "a2"⟩]

/-! ## `sync_init` -/

/-- `sync_init`: validate the inputs, return an existing mapping when its
project matches, refuse when it differs, and otherwise create and persist a
fresh record. Returns the command result, the new on-disk mapping, and the
advanced tick. -/
def syncInit (clock : Nat → String) (tick : Nat) (vaultPath pid : String)
    (disk : Option SyncMappingV1) :
    Except String SyncMappingV1 × Option SyncMappingV1 × Nat :=
  if strAllWs vaultPath then
    (.error "vault_path is required", disk, tick)
  else if strAllWs pid then
    (.error "project_folder_id is required", disk, tick)
  else
    match disk with
    | some existing =>
      if existing.project_folder_id ≠ pid then
        (.error "This vault is already linked to a different NexusMap project. Remove .nexusmap/sync.json to relink.", disk, tick)
      else
        (.ok existing, disk, tick)
    | none =>
      let now := clock tick
      let mapping : SyncMappingV1 :=
        { version := 1
          vault_path := vaultPath
          project_folder_id := pid
          created_at := now
          updated_at := now
          last_pull_at := ""
          last_rag_export_at := ""
          folders := [("", pid)]
          files := []
          resources := [] }
      (.ok mapping, some mapping, tick + 1)

/-! ## `ensure_folder_path`: the folder path resolver -/

/-- One remote call of the push engine, recorded in issue order. -/
inductive RemoteCall where
  | findFolder (parentId name : String)
  | createFolder (parentId name : String)
  | findFile (folderId name : String)
  | createFile (folderId name : String)
  | updateFile (fileId : String)
  | deleteFile (fileId : String)
  | fetchBackup (fileId : String)
deriving DecidableEq

/-- Whether a remote call is the folder-create POST. -/
def RemoteCall.isCreateFolder : RemoteCall → Bool
  | .createFolder _ _ => true
  | _ => false

/-- Whether a remote call is an HTTP mutation (POST, PATCH or DELETE, as
opposed to the GET lookups). -/
def RemoteCall.isMutation : RemoteCall → Bool
  | .createFolder _ _ => true
  | .createFile _ _ => true
  | .updateFile _ => true
  | .deleteFile _ => true
  | _ => false

/-- The server as the push engine sees it: responses to the folder/file
lookups and CRUD calls, assuming transport succeeds. -/
structure PushEnv where
  findFolder : String → String → Option String
  createFolder : String → String → String
  findFile : String → String → Option String
  createFile : String → String → String → String → String → FileRowR
  updateFile : String → String → String → String → FileRowR
  fetchBackup : String → Option BackupRow

/-- The prefix accumulation of `ensure_folder_path`: extend the current
relative prefix by one segment. -/
def joinStep (cur seg : String) : String :=
  if cur = "" then seg else cur ++ "/" ++ seg

/-- The successive relative prefixes the resolver walks for a segment list. -/
def chainRels (cur : String) : List String → List String
  | [] => []
  | seg :: rest => joinStep cur seg :: chainRels (joinStep cur seg) rest

/-- Record one more remote call at the front of a resolver result's trace. -/
def addCall (c : RemoteCall)
    (r : String × List (String × String) × SyncSummary × List RemoteCall) :
    String × List (String × String) × SyncSummary × List RemoteCall :=
  (r.1, r.2.1, r.2.2.1, c :: r.2.2.2)

/-- The segment walk of `ensure_folder_path`: for each segment, use the
mapping's folder id when present, else look it up remotely (and count it
reused), else create it remotely (and count it created), threading the
accumulated relative prefix `cur` and the parent id. Returns the final folder
id, the updated `folders` table, the updated summary, and the remote calls. -/
def ensureLoop (env : PushEnv) :
    List String → String → String → List (String × String) → SyncSummary →
    String × List (String × String) × SyncSummary × List RemoteCall
  | [], parentId, _, folders, summary => (parentId, folders, summary, [])
  | seg :: rest, parentId, cur, folders, summary =>
    match alookup (joinStep cur seg) folders with
    | some id => ensureLoop env rest id (joinStep cur seg) folders summary
    | none =>
      match env.findFolder parentId seg with
      | some found =>
        addCall (.findFolder parentId seg)
          (ensureLoop env rest found (joinStep cur seg)
            (ainsert (joinStep cur seg) found folders)
            { summary with folders_reused := summary.folders_reused + 1 })
      | none =>
        addCall (.findFolder parentId seg) (addCall (.createFolder parentId seg)
          (ensureLoop env rest (env.createFolder parentId seg) (joinStep cur seg)
            (ainsert (joinStep cur seg) (env.createFolder parentId seg) folders)
            { summary with folders_created := summary.folders_created + 1 }))

/-- `ensure_folder_path`: empty (whitespace-only) input returns the project
root id; otherwise walk the non-empty slash segments from the project root. -/
def ensureFolderPath (env : PushEnv) (mapping : SyncMappingV1) (summary : SyncSummary)
    (relFolderPath : String) :
    String × SyncMappingV1 × SyncSummary × List RemoteCall :=
  if strAllWs relFolderPath then
    (mapping.project_folder_id, mapping, summary, [])
  else
    let r := ensureLoop env (segsOf relFolderPath) mapping.project_folder_id "" mapping.folders summary
    (r.1, { mapping with folders := r.2.1 }, r.2.2.1, r.2.2.2)

/-! ## `sync_one_path`: the push engine -/

instance {ε α : Type} [DecidableEq ε] [DecidableEq α] : DecidableEq (Except ε α) :=
  fun a b =>
    match a, b with
    | .ok x, .ok y =>
      if h : x = y then isTrue (by rw [h]) else isFalse (by simp [h])
    | .error x, .error y =>
      if h : x = y then isTrue (by rw [h]) else isFalse (by simp [h])
    | .ok _, .error _ => isFalse (by simp)
    | .error _, .ok _ => isFalse (by simp)

/-- The outcome of a push-engine call: the command result, the world after the
call, and the remote calls issued (in order). -/
structure PushOutcome where
  result : Except String Unit
  world : World
  calls : List RemoteCall
deriving DecidableEq

/-- The tail of `sync_one_path` once the mapping is in hand: the project
mismatch check, the root-folder insert, and the directory / deletion /
non-markdown / markdown-upsert branches, each consuming `Utc::now()` readings
in source order. `updated_at` is the reading taken at the top of the call. -/
def syncOnePathWithMapping (sha detectKind : String → String) (clock : Nat → String)
    (env : PushEnv) (pid rel : String) (w : World) (m0 : SyncMappingV1)
    (updated_at : String) : PushOutcome :=
  if m0.project_folder_id ≠ pid then
    ⟨.error "mapping project_folder_id mismatch", w, []⟩
  else
    let m1 := { m0 with folders := ainsert "" pid m0.folders }
    let existsFile := (alookup rel w.fsFiles).isSome
    let existsDir := w.fsDirs.contains rel
    if (existsFile || existsDir) && existsDir then
      let r := ensureFolderPath env m1 emptySummary rel
      let m2 := { r.2.1 with updated_at := clock w.tick }
      let ev : SyncEvent := ⟨clock (w.tick + 1), "push", rel, "Ensured remote folder"⟩
      ⟨.ok (), { w with mappingDisk := some m2, events := w.events ++ [ev], tick := w.tick + 2 },
        r.2.2.2⟩
    else if !(existsFile || existsDir) then
      match alookup rel m1.files with
      | some prev =>
        let m2 := { m1 with files := aremove rel m1.files }
        let ts := clock w.tick
        let trash2 :=
          match env.fetchBackup prev.file_id with
          | some bk => w.trash ++ [⟨ts, rel, bk.content.getD ""⟩]
          | none => w.trash
        let ev : SyncEvent := ⟨clock (w.tick + 1), "delete", rel, "Deleted remote file_id=" ++ prev.file_id⟩
        let m3 := { m2 with updated_at := clock (w.tick + 2) }
        let w2 := { w with trash := trash2, events := w.events ++ [ev], mappingDisk := some m3, tick := w.tick + 3 }
        ⟨.ok (), w2, [.fetchBackup prev.file_id, .deleteFile prev.file_id]⟩
      | none => ⟨.ok (), w, []⟩
    else if (extensionOf rel).getD "" ≠ "md" then
      ⟨.ok (), w, []⟩
    else
      let content := (alookup rel w.fsFiles).getD ""
      let local_hash := sha content
      let kind := detectKind content
      let parentRel0 := parentOfPath rel
      let parentRel := if parentRel0 = "." then "" else parentRel0
      let r := ensureFolderPath env m1 emptySummary parentRel
      let folder_id := r.1
      let m2 := r.2.1
      let tr1 := r.2.2.2
      match alookup rel m2.files with
      | some prev =>
        if prev.local_hash = local_hash then
          ⟨.ok (), w, tr1⟩
        else
          let row := env.updateFile prev.file_id kind content updated_at
          let fm : FileMappingV1 := ⟨prev.file_id, folder_id, kind, local_hash, row.updated_at.getD updated_at⟩
          let m3 := { m2 with files := ainsert rel fm m2.files, updated_at := clock w.tick }
          let ev : SyncEvent := ⟨clock (w.tick + 1), "push", rel, "Updated remote file_id=" ++ prev.file_id⟩
          ⟨.ok (), { w with mappingDisk := some m3, events := w.events ++ [ev], tick := w.tick + 2 },
            tr1 ++ [.updateFile prev.file_id]⟩
      | none =>
        let name := (segsOf rel).getLast?.getD "Untitled.md"
        match env.findFile folder_id name with
        | none =>
          let row := env.createFile folder_id name kind content updated_at
          let fm : FileMappingV1 := ⟨row.id, folder_id, kind, local_hash, row.updated_at.getD updated_at⟩
          let m3 := { m2 with files := ainsert rel fm m2.files, updated_at := clock w.tick }
          ⟨.ok (), { w with mappingDisk := some m3, tick := w.tick + 1 },
            tr1 ++ [.findFile folder_id name, .createFile folder_id name]⟩
        | some fid2 =>
          let row := env.updateFile fid2 kind content updated_at
          let fm : FileMappingV1 := ⟨fid2, folder_id, kind, local_hash, row.updated_at.getD updated_at⟩
          let m3 := { m2 with files := ainsert rel fm m2.files, updated_at := clock w.tick }
          let ev : SyncEvent := ⟨clock (w.tick + 1), "push", rel, "Upserted remote file_id=" ++ fid2⟩
          ⟨.ok (), { w with mappingDisk := some m3, events := w.events ++ [ev], tick := w.tick + 2 },
            tr1 ++ [.findFile folder_id name, .updateFile fid2]⟩

/-- The body of `sync_one_path` after the exclusion checks: take the
`updated_at` reading, read the mapping from disk (running `sync_init` when it
is absent, which persists the fresh record), and continue. -/
def syncOnePathCore (sha detectKind : String → String) (clock : Nat → String)
    (env : PushEnv) (vaultPath pid rel : String) (w : World) : PushOutcome :=
  let updated_at := clock w.tick
  let w1 := { w with tick := w.tick + 1 }
  match w1.mappingDisk with
  | some m => syncOnePathWithMapping sha detectKind clock env pid rel w1 m updated_at
  | none =>
    match syncInit clock w1.tick vaultPath pid none with
    | (.error e, disk2, t2) => ⟨.error e, { w1 with mappingDisk := disk2, tick := t2 }, []⟩
    | (.ok m, disk2, t2) =>
      syncOnePathWithMapping sha detectKind clock env pid rel
        { w1 with mappingDisk := disk2, tick := t2 } m updated_at

/-- `sync_one_path`: ignore paths outside the vault, paths with a `.nexusmap`
component, and the reserved `resources/` and `rag/` subtrees; then run the
push body on the POSIX relative path. Paths are component lists; the relative
path is their slash-join, as `to_rel_posix` computes it. -/
def syncOnePath (sha detectKind : String → String) (clock : Nat → String) (env : PushEnv)
    (vaultPath : String) (rootComps absComps : List String) (pid : String) (w : World) :
    PushOutcome :=
  if !(rootComps.isPrefixOf absComps) then ⟨.ok (), w, []⟩
  else if absComps.contains ".nexusmap" then ⟨.ok (), w, []⟩
  else
    let rel := joinSlash (absComps.drop rootComps.length)
    if rel = "resources" || strStartsWith rel "resources/" then ⟨.ok (), w, []⟩
    else if rel = "rag" || strStartsWith rel "rag/" then ⟨.ok (), w, []⟩
    else syncOnePathCore sha detectKind clock env vaultPath pid rel w

/-! ## `sync_initial_import` -/

/-- One entry of the `WalkDir` enumeration handed to the initial import: its
path components relative to the vault root (empty for the root itself) and
whether it is a directory. File contents are read from the world. -/
structure ImportEntry where
  relComps : List String
  isDir : Bool
deriving DecidableEq

/-- The per-entry loop of `sync_initial_import`: skip the root, `.nexusmap`,
`resources/`, `rag/` and non-markdown files; ensure remote folders for
directories; upsert markdown files, reusing remote rows found by name. An
unreadable file aborts the loop (the Rust `?`). -/
def importLoop (sha detectKind : String → String) (env : PushEnv)
    (fsFiles : List (String × String)) (updated_at : String) :
    List ImportEntry → SyncMappingV1 → SyncSummary →
    Except String (SyncMappingV1 × SyncSummary)
  | [], m, s => .ok (m, s)
  | e :: rest, m, s =>
    if e.relComps = [] then importLoop sha detectKind env fsFiles updated_at rest m s
    else if e.relComps.contains ".nexusmap" then
      importLoop sha detectKind env fsFiles updated_at rest m s
    else
      let rel := joinSlash e.relComps
      if rel = "resources" || strStartsWith rel "resources/" then
        importLoop sha detectKind env fsFiles updated_at rest m s
      else if rel = "rag" || strStartsWith rel "rag/" then
        importLoop sha detectKind env fsFiles updated_at rest m s
      else if e.isDir then
        let r := ensureFolderPath env m s rel
        importLoop sha detectKind env fsFiles updated_at rest r.2.1 r.2.2.1
      else if (extensionOf rel).getD "" ≠ "md" then
        importLoop sha detectKind env fsFiles updated_at rest m s
      else
        match alookup rel fsFiles with
        | none => .error ("read failed: " ++ rel)
        | some bytes =>
          let local_hash := sha bytes
          let content := bytes
          let kind := detectKind content
          let parentRel0 := parentOfPath rel
          let parentRel := if parentRel0 = "." then "" else parentRel0
          let r := ensureFolderPath env m s parentRel
          let folder_id := r.1
          let m2 := r.2.1
          let s2 := r.2.2.1
          match alookup rel m2.files with
          | some prev =>
            if prev.local_hash = local_hash then
              importLoop sha detectKind env fsFiles updated_at rest m2
                { s2 with files_skipped := s2.files_skipped + 1 }
            else
              let row := env.updateFile prev.file_id kind content updated_at
              let fm : FileMappingV1 := ⟨prev.file_id, folder_id, kind, local_hash, row.updated_at.getD updated_at⟩
              importLoop sha detectKind env fsFiles updated_at rest
                { m2 with files := ainsert rel fm m2.files }
                { s2 with files_updated := s2.files_updated + 1 }
          | none =>
            let name := e.relComps.getLast?.getD "Untitled.md"
            match env.findFile folder_id name with
            | none =>
              let row := env.createFile folder_id name kind content updated_at
              let fm : FileMappingV1 := ⟨row.id, folder_id, kind, local_hash, row.updated_at.getD updated_at⟩
              importLoop sha detectKind env fsFiles updated_at rest
                { m2 with files := ainsert rel fm m2.files }
                { s2 with files_created := s2.files_created + 1 }
            | some fid2 =>
              let row := env.updateFile fid2 kind content updated_at
              let fm : FileMappingV1 := ⟨fid2, folder_id, kind, local_hash, row.updated_at.getD updated_at⟩
              importLoop sha detectKind env fsFiles updated_at rest
                { m2 with files := ainsert rel fm m2.files }
                { s2 with files_updated := s2.files_updated + 1 }

/-- `sync_initial_import`: read (or init) the mapping, refuse on a project
mismatch, ensure the root folder mapping, walk the entries, then stamp and
persist the mapping. -/
def syncInitialImport (sha detectKind : String → String) (clock : Nat → String)
    (env : PushEnv) (entries : List ImportEntry) (vaultPath pid : String) (w : World) :
    Except String SyncSummary × World :=
  let r0 :=
    match w.mappingDisk with
    | some m0 => (Except.ok m0, w.mappingDisk, w.tick)
    | none => syncInit clock w.tick vaultPath pid none
  match r0 with
  | (.error e, disk2, t2) => (.error e, { w with mappingDisk := disk2, tick := t2 })
  | (.ok m0, disk2, t2) =>
    if m0.project_folder_id ≠ pid then
      (.error "mapping project_folder_id mismatch", { w with mappingDisk := disk2, tick := t2 })
    else
      let updated_at := clock t2
      let m1 := { m0 with folders := ainsert "" pid m0.folders }
      match importLoop sha detectKind env w.fsFiles updated_at entries m1 emptySummary with
      | .error e => (.error e, { w with mappingDisk := disk2, tick := t2 + 1 })
      | .ok (m2, s2) =>
        let m3 := { m2 with updated_at := clock (t2 + 1) }
        (.ok s2, { w with mappingDisk := some m3, tick := t2 + 2 })

/-! ## `sync_pull_once`: the pull engine -/

/-- The state threaded through the pull loops: the in-memory mapping, the
vault filesystem, the trash, the event log, the summary counters, the local
`conflicts` counter, and the clock tick. -/
structure PullSt where
  mapping : SyncMappingV1
  fsFiles : List (String × String)
  fsDirs : List String
  trash : List TrashEntry
  events : List SyncEvent
  summary : SyncSummary
  conflicts : Nat
  tick : Nat
deriving DecidableEq

/-- The walk of `folder_rel_from_tree`: climb `parent_id` links for at most 64
steps collecting names; stop when the parent is the project root; `none` when
a node is missing or a reachable `parent_id` is null. Falling out after 64
steps returns the partial name list, as the Rust `for _ in 0..64` does. -/
def goFolderRel (byId : List (String × FolderNode)) (pid : String) :
    Nat → String → List String → Option (List String)
  | 0, _, parts => some parts
  | n + 1, cur, parts =>
    match alookup cur byId with
    | none => none
    | some node =>
      let parts2 := parts ++ [node.name]
      match node.parent_id with
      | some p => if p = pid then some parts2 else goFolderRel byId pid n p parts2
      | none => none

/-- `folder_rel_from_tree`: the relative path of a remote folder, rebuilt by
walking the fetched folder rows up to the project root. -/
def folderRelFromTree (pid folderId : String) (byId : List (String × FolderNode)) :
    Option String :=
  if folderId = pid then some ""
  else (goFolderRel byId pid 64 folderId []).map fun parts => joinSlash parts.reverse

/-- `reverse_file_map`: `file_id → rel` over the mapping's files table. -/
def reverseFileMap (m : SyncMappingV1) : List (String × String) :=
  m.files.foldl (fun acc p => ainsert p.2.file_id p.1 acc) []

/-- The `find_map` over `mapping.folders` looking up a folder id's relative
path (first match in iteration order). -/
def findRelById : List (String × String) → String → Option String
  | [], _ => none
  | (rel, id2) :: rest, fid => if id2 = fid then some rel else findRelById rest fid

/-- Step 4a of the pull contract: the target folder's relative path — the
mapping's reverse lookup, else the remote-tree walk, else root. -/
def pullFolderRel (pid fid : String) (mfolders : List (String × String))
    (byId : List (String × FolderNode)) : String :=
  match findRelById mfolders fid with
  | some rel => rel
  | none => (folderRelFromTree pid fid byId).getD ""

/-- Step 4b of the pull contract: the target relative path — the mapping's
reverse lookup by `file_id`, else `<folder_rel>/<name>`. -/
def pullRelPath (byFileId : List (String × String)) (folderRel : String)
    (rf : RemoteFileRow) : String :=
  match alookup rf.id byFileId with
  | some rel => rel
  | none => if folderRel = "" then rf.name else folderRel ++ "/" ++ rf.name

/-- The sibling name given to a conflicting remote copy. -/
def conflictFileName (stem ts ext : String) : String :=
  stem ++ " (conflict from NexusMap " ++ ts ++ ")." ++ ext

/-- One iteration of the pull engine's changed-file loop (steps 4a–4f of the
pull contract): resolve the target path, detect local-vs-remote divergence,
and either write the conflict sibling or overwrite and remap. -/
def pullFileStep (sha : String → String) (clock : Nat → String) (vaultPath pid : String)
    (byId : List (String × FolderNode)) (byFileId : List (String × String))
    (st : PullSt) (rf : RemoteFileRow) : PullSt :=
  let rt :=
    match rf.updated_at with
    | some u => (u, st.tick)
    | none => (clock st.tick, st.tick + 1)
  let remoteUpdatedAt := rt.1
  let t0 := rt.2
  let remoteContent := rf.content.getD ""
  let remoteKind := rf.kind.getD "note"
  let folderId := rf.folder_id.getD pid
  let folderRel := pullFolderRel pid folderId st.mapping.folders byId
  let dirs2 := folderRel :: st.fsDirs
  let relPath := pullRelPath byFileId folderRel rf
  let localBytes := alookup relPath st.fsFiles
  let localHash := (localBytes.map sha).getD ""
  let prev := alookup relPath st.mapping.files
  let prevLocalHash := (prev.map fun p => p.local_hash).getD ""
  let prevRemoteUpdated := (prev.map fun p => p.remote_updated_at).getD ""
  if (prevLocalHash ≠ "" ∧ localHash ≠ prevLocalHash) ∧
      (prevRemoteUpdated ≠ "" ∧ strLtB prevRemoteUpdated remoteUpdatedAt = true) then
    let ts := clock t0
    let stem := (fileStemOf relPath).getD "conflict"
    let ext := (extensionOf relPath).getD "md"
    let cname := conflictFileName stem ts ext
    let cpath := withFileName relPath cname
    let ev : SyncEvent := ⟨clock (t0 + 1), "conflict", relPath,
      "Remote update would overwrite local edits. Wrote " ++ pathDisplay vaultPath cpath⟩
    { st with
      fsFiles := ainsert cpath remoteContent st.fsFiles
      fsDirs := dirs2
      events := st.events ++ [ev]
      conflicts := st.conflicts + 1
      tick := t0 + 2 }
  else
    let nextHash := sha remoteContent
    let summary2 :=
      if prev.isSome then { st.summary with files_updated := st.summary.files_updated + 1 }
      else { st.summary with files_created := st.summary.files_created + 1 }
    let fm : FileMappingV1 := ⟨rf.id, folderId, remoteKind, nextHash, remoteUpdatedAt⟩
    { st with
      fsFiles := ainsert relPath remoteContent st.fsFiles
      fsDirs := dirs2
      mapping := { st.mapping with files := ainsert relPath fm st.mapping.files }
      summary := summary2
      tick := t0 }

/-- One iteration of the pull engine's resource loop (step 5 of the pull
contract): same pipeline, target `resources/<name>` or
`resources/docling/<name>`. -/
def pullResourceStep (sha : String → String) (clock : Nat → String) (vaultPath : String)
    (st : PullSt) (rr : RemoteResourceRow) : PullSt :=
  let rt :=
    match rr.updated_at with
    | some u => (u, st.tick)
    | none => (clock st.tick, st.tick + 1)
  let remoteUpdatedAt := rt.1
  let t0 := rt.2
  let relPath :=
    if rr.sourceType = some "docling" then "resources/docling/" ++ rr.name
    else "resources/" ++ rr.name
  let dirs2 := parentOfPath relPath :: st.fsDirs
  let localBytes := alookup relPath st.fsFiles
  let localHash := (localBytes.map sha).getD ""
  let contentHash := sha rr.markdown
  let prev := alookup relPath st.mapping.resources
  let prevLocalHash := (prev.map fun p => p.local_hash).getD ""
  let prevRemoteUpdated := (prev.map fun p => p.remote_updated_at).getD ""
  if (prevLocalHash ≠ "" ∧ localHash ≠ prevLocalHash) ∧
      (prevRemoteUpdated ≠ "" ∧ strLtB prevRemoteUpdated remoteUpdatedAt = true) then
    let ts := clock t0
    let stem := (fileStemOf relPath).getD "resource"
    let ext := (extensionOf relPath).getD "md"
    let cname := conflictFileName stem ts ext
    let cpath := withFileName relPath cname
    let ev : SyncEvent := ⟨clock (t0 + 1), "conflict", relPath,
      "Remote resource update would overwrite local edits. Wrote " ++ pathDisplay vaultPath cpath⟩
    { st with
      fsFiles := ainsert cpath rr.markdown st.fsFiles
      fsDirs := dirs2
      events := st.events ++ [ev]
      conflicts := st.conflicts + 1
      tick := t0 + 2 }
  else
    let rm : ResourceMappingV1 := ⟨rr.id, contentHash, remoteUpdatedAt⟩
    { st with
      fsFiles := ainsert relPath rr.markdown st.fsFiles
      fsDirs := dirs2
      mapping := { st.mapping with resources := ainsert relPath rm st.mapping.resources }
      tick := t0 }

/-- `archive_file_to_trash`: when `rel` is a regular file of the vault, copy
it to `.nexusmap/trash/<ts>/<rel>` and delete the original; otherwise do
nothing. Returns the filesystem, the trash and the tick. -/
def archiveFileToTrash (clock : Nat → String) (tick : Nat)
    (fsFiles : List (String × String)) (trash : List TrashEntry) (rel : String) :
    List (String × String) × List TrashEntry × Nat :=
  match alookup rel fsFiles with
  | none => (fsFiles, trash, tick)
  | some content =>
    let ts := clock tick
    (aremove rel fsFiles, trash ++ [⟨ts, rel, content⟩], tick + 1)

/-- The mapping entries whose `file_id` is absent from the full remote id set
(`to_remove_files` in the source), in files-table order. -/
def filesToRemove (ids : List String) (m : SyncMappingV1) : List String :=
  (m.files.filter fun p => !(ids.contains p.2.file_id)).map fun p => p.1

/-- The per-path loop of the file-side remote-deletion reconciliation:
archive, drop the mapping entry, count, emit `pull_delete`. -/
def reconcileFilesLoop (clock : Nat → String) : List String → PullSt → PullSt
  | [], st => st
  | rel :: rest, st =>
    let a := archiveFileToTrash clock st.tick st.fsFiles st.trash rel
    let ev : SyncEvent := ⟨clock a.2.2, "pull_delete", rel,
      "Remote file was deleted; archived local copy to .nexusmap/trash/"⟩
    let st2 :=
      { st with
        fsFiles := a.1
        trash := a.2.1
        mapping := { st.mapping with files := aremove rel st.mapping.files }
        summary := { st.summary with files_deleted := st.summary.files_deleted + 1 }
        events := st.events ++ [ev]
        tick := a.2.2 + 1 }
    reconcileFilesLoop clock rest st2

/-- Step 6 of the pull contract, file side. -/
def reconcileFiles (clock : Nat → String) (ids : List String) (st : PullSt) : PullSt :=
  reconcileFilesLoop clock (filesToRemove ids st.mapping) st

/-- The resource mapping entries whose `resource_id` is absent from the remote
resource id set (`to_remove_resources` in the source). -/
def resourcesToRemove (ids : List String) (m : SyncMappingV1) : List String :=
  (m.resources.filter fun p => !(ids.contains p.2.resource_id)).map fun p => p.1

/-- The per-path loop of the resource-side reconciliation. -/
def reconcileResourcesLoop (clock : Nat → String) : List String → PullSt → PullSt
  | [], st => st
  | rel :: rest, st =>
    let a := archiveFileToTrash clock st.tick st.fsFiles st.trash rel
    let ev : SyncEvent := ⟨clock a.2.2, "pull_delete", rel,
      "Remote resource was deleted; archived local copy to .nexusmap/trash/"⟩
    let st2 :=
      { st with
        fsFiles := a.1
        trash := a.2.1
        mapping := { st.mapping with resources := aremove rel st.mapping.resources }
        summary := { st.summary with resources_deleted := st.summary.resources_deleted + 1 }
        events := st.events ++ [ev]
        tick := a.2.2 + 1 }
    reconcileResourcesLoop clock rest st2

/-- Step 6 of the pull contract, resource side. -/
def reconcileResources (clock : Nat → String) (ids : List String) (st : PullSt) : PullSt :=
  reconcileResourcesLoop clock (resourcesToRemove ids st.mapping) st

/-- The remote data one pull cycle fetches, as the environment supplies it:
the folder rows, the changed file rows, the full remote file id set, the
changed resource rows, the full remote resource id set, and the outcome of
the KB snapshot export (`some u` when `rag_export_into_vault` exported a
snapshot stamped `u`; its `rag/` writes and event are outside every claim and
are left opaque). The subtree BFS, modelled by `computeSubtreeFolderIds`,
only shapes the queries these responses answer. -/
structure PullEnv where
  folders : List FolderNode
  remoteFiles : List RemoteFileRow
  remoteFileIds : List String
  remoteResources : List RemoteResourceRow
  remoteResourceIds : List String
  ragExport : Option String

/-- The detail string of the final `pull` event. -/
def pullEventDetail (s : SyncSummary) (conflicts : Nat) : String :=
  "Pulled. Files created: " ++ toString s.files_created ++
  ", updated: " ++ toString s.files_updated ++
  ", deleted: " ++ toString s.files_deleted ++
  ". Resources deleted: " ++ toString s.resources_deleted ++
  ". Conflicts: " ++ toString conflicts ++
  ". Errors: " ++ toString s.errors.length ++ "."

/-- `sync_pull_once`: read (or init) the mapping, refuse on a project
mismatch, run the changed-file and changed-resource loops, reconcile remote
deletions on both tables, record the KB export stamp, then stamp
`last_pull_at`/`updated_at`, persist the mapping and emit the `pull` event. -/
def syncPullOnce (sha : String → String) (clock : Nat → String) (env : PullEnv)
    (vaultPath pid : String) (w : World) : Except String SyncSummary × World :=
  let r0 :=
    match w.mappingDisk with
    | some m0 => (Except.ok m0, w.mappingDisk, w.tick)
    | none => syncInit clock w.tick vaultPath pid none
  match r0 with
  | (.error e, disk2, t2) => (.error e, { w with mappingDisk := disk2, tick := t2 })
  | (.ok m0, disk2, t2) =>
    if m0.project_folder_id ≠ pid then
      (.error "mapping project_folder_id mismatch", { w with mappingDisk := disk2, tick := t2 })
    else
      let since := if strAllWs m0.last_pull_at then "1970-01-01T00:00:00Z" else m0.last_pull_at
      let byId := env.folders.foldl (fun acc f => ainsert f.id f acc) []
      let byFileId := reverseFileMap m0
      let st0 : PullSt := ⟨m0, w.fsFiles, w.fsDirs, w.trash, w.events, emptySummary, 0, t2⟩
      let st1 := env.remoteFiles.foldl (pullFileStep sha clock vaultPath pid byId byFileId) st0
      let st2 := env.remoteResources.foldl (pullResourceStep sha clock vaultPath) st1
      let st3 := reconcileFiles clock env.remoteFileIds st2
      let st4 := reconcileResources clock env.remoteResourceIds st3
      let m1 :=
        match env.ragExport with
        | some u => { st4.mapping with last_rag_export_at := u }
        | none => st4.mapping
      let m2 := { m1 with last_pull_at := clock st4.tick, updated_at := clock (st4.tick + 1) }
      let ev : SyncEvent := ⟨clock (st4.tick + 2), "pull", "", pullEventDetail st4.summary st4.conflicts⟩
      let w2 :=
        { w with
          fsFiles := st4.fsFiles
          fsDirs := st4.fsDirs
          trash := st4.trash
          events := st4.events ++ [ev]
          mappingDisk := some m2
          tick := st4.tick + 3 }
      (.ok st4.summary, w2)

/-! ## Statement-level predicates and concrete instances -/

/-- The spec's files/folders invariant: every files entry's parent folder
relative path is a key of the folders table. -/
def MappingFilesFoldersInv (m : SyncMappingV1) : Prop :=
  ∀ rel fm, alookup rel m.files = some fm →
    (alookup (parentOfPath rel) m.folders).isSome = true

/-- The invariant lifted to the on-disk mapping slot. -/
def DiskFoldersInv (d : Option SyncMappingV1) : Prop :=
  ∀ m, d = some m → MappingFilesFoldersInv m

/-- A well-formed filesystem path component: non-empty, slash-free, not
`.` and not whitespace-only (OS path components are such). -/
def validCompB (c : String) : Bool :=
  (c != "") && (c != ".") && (c.data.all fun ch => ch != '/') && (!strAllWs c)

/-- A constant stand-in for an external string function (hash, kind). -/
def constFun (s : String) : String → String := fun _ => s

/-- A constant stand-in for the clock stream. -/
def constClock (s : String) : Nat → String := fun _ => s

/-- A concrete deterministic push environment: remote folder/file lookups
find nothing, creates return fixed ids, the backup fetch finds a row. -/
def pushEnvA : PushEnv :=
  ⟨fun _ _ => none, fun _ _ => "FID", fun _ _ => none,
    fun _ _ _ _ _ => ⟨"NEW", none⟩, fun _ _ _ _ => ⟨"UPD", none⟩,
    fun _ => some ⟨"f1", "n.md", some "body"⟩⟩

/-- A freshly initialized mapping for project `P` of vault `/v`. -/
def mappingP : SyncMappingV1 :=
  ⟨1, "/v", "P", "", "", "", "", [("", "P")], [], []⟩

/-- A world whose disk holds `mappingP` and whose vault is empty. -/
def worldP : World :=
  ⟨[], [], [], [], some mappingP, 0⟩

/-- The pull environment of the invariant counterexample: one remote folder
`a` under the project root and one changed file `n.md` inside it, still
present in the remote id set. -/
def c2Env : PullEnv :=
  ⟨[⟨"F", some "P", "a"⟩],
    [⟨"f1", "n.md", some "F", some "body", some "2024-01-01T00:00:00Z", some "note"⟩],
    ["f1"], [], [], none⟩

/-- A mapping whose files table has an entry for `a/n.md` but whose folders
table only knows the root (the state a pull can produce). -/
def c5Mapping : SyncMappingV1 :=
  ⟨1, "/v", "P", "", "", "", "", [("", "P")],
    [("a/n.md", ⟨"f1", "F", "note", "H", "2024"⟩)], []⟩

/-- The world of the push-idempotence counterexample: `a/n.md` exists locally
and its mapping hash matches its content hash. -/
def c5World : World :=
  ⟨[("a/n.md", "x")], [], [], [], some c5Mapping, 0⟩

/-- Like `c5Mapping`, but with the parent folder `a` present in the folders
table, as a successful push leaves it. -/
def c5ChainMapping : SyncMappingV1 :=
  ⟨1, "/v", "P", "", "", "", "", [("", "P"), ("a", "F")],
    [("a/n.md", ⟨"f1", "F", "note", "H", "2024"⟩)], []⟩

/-- The world of the push-idempotence witness: `a/n.md` exists locally, its
mapping hash matches, and its folder chain is mapped. -/
def c5ChainWorld : World :=
  ⟨[("a/n.md", "x")], [], [], [], some c5ChainMapping, 0⟩

/-- The environment of the token-refresh counterexample: every request gets a
401 and the refresh POST itself fails with a 500. -/
def c8Env : SendEnv Nat :=
  ⟨fun _ => ⟨401, "unauthorized"⟩, fun r => .ok r.status,
    fun _ => ⟨500, "boom"⟩, fun _ => .error "not reached"⟩

/-- An auth blob holding a refresh token. -/
def c8Auth : SupabaseAuth :=
  ⟨"https://x", "anon", "tok", some "R", "owner"⟩

/-- A mapping with one synced root file `n.md`, diverged on both sides. -/
def c1Mapping : SyncMappingV1 :=
  ⟨1, "/v", "P", "", "", "", "", [("", "P")],
    [("n.md", ⟨"f1", "P", "note", "HOLD", "2023"⟩)], []⟩

/-- The pull-loop state of the conflict witness: the local file `n.md` holds
bytes whose hash differs from the mapping's. -/
def c1St : PullSt :=
  ⟨c1Mapping, [("n.md", "local")], [], [], [], emptySummary, 0, 0⟩

/-- The conflicting remote row for `n.md`: newer than the mapping knows. -/
def c1Row : RemoteFileRow :=
  ⟨"f1", "n.md", some "P", some "remote", some "2024", some "note"⟩

/-- A world holding `c5Mapping` on disk with `a/n.md` absent locally, for the
deletion-archival witness. -/
def c3World : World :=
  ⟨[], [], [], [], some c5Mapping, 0⟩

/-- A pull-loop state with one mapped file (present locally) and one mapped
resource (present locally), for the reconciliation witness. -/
def c4St : PullSt :=
  ⟨⟨1, "/v", "P", "", "", "", "", [("", "P")],
      [("a/n.md", ⟨"f1", "F", "note", "H", "2024"⟩)],
      [("resources/r.md", ⟨"r1", "RH", "2024"⟩)]⟩,
    [("a/n.md", "body"), ("resources/r.md", "rbody")], [], [], [], emptySummary, 0, 0⟩

/-! ## General lemmas about the association-list HashMap embedding -/

theorem alookup_aremove {β : Type} (k r : String) (m : List (String × β)) :
    alookup k (aremove r m) = if k = r then none else alookup k m := by
  induction m with
  | nil => by_cases h : k = r <;> simp [aremove, alookup, h]
  | cons p rest ih =>
    obtain ⟨k2, v⟩ := p
    by_cases h2 : k2 = r
    · subst h2
      by_cases h : k = k2 <;> simp [aremove, alookup, h] at ih ⊢ <;> simpa [h] using ih
    · by_cases h : k = k2
      · subst h
        simp [aremove, alookup, h2, if_neg h2]
      · simp [aremove, alookup, h2, h] at ih ⊢
        exact ih

theorem alookup_ainsert_self {β : Type} (k : String) (v : β) (m : List (String × β)) :
    alookup k (ainsert k v m) = some v := by
  simp [ainsert, alookup]

theorem alookup_ainsert_ne {β : Type} (k k2 : String) (v : β) (m : List (String × β))
    (h : k ≠ k2) : alookup k (ainsert k2 v m) = alookup k m := by
  simp [ainsert, alookup, h]
  rw [alookup_aremove, if_neg h]

theorem alookup_ainsert_isSome {β : Type} (k k2 : String) (v : β) (m : List (String × β))
    (h : (alookup k m).isSome = true) : (alookup k (ainsert k2 v m)).isSome = true := by
  by_cases he : k = k2
  · subst he; simp [alookup_ainsert_self]
  · rw [alookup_ainsert_ne _ _ _ _ he]; exact h

theorem alookup_mem {β : Type} (k : String) (v : β) (m : List (String × β))
    (h : alookup k m = some v) : (k, v) ∈ m := by
  induction m with
  | nil => simp [alookup] at h
  | cons p rest ih =>
    obtain ⟨k2, v2⟩ := p
    by_cases he : k = k2
    · subst he
      simp [alookup] at h
      subst h
      exact List.mem_cons_self _ _
    · simp [alookup, he] at h
      exact List.mem_cons_of_mem _ (ih h)

/-! ## C6: idempotent init -/

/-- C6: for a vault with an existing mapping record, `sync_init` returns that
record unchanged when its `project_folder_id` matches and fails without
touching the disk when it differs; with no record it creates and persists a
fresh record with `folders = ("" ↦ P)` and empty files and resources. -/
theorem C6_idempotent_init (clock : Nat → String) (tick : Nat) (vp pid : String)
    (disk : Option SyncMappingV1)
    (hvp : strAllWs vp = false) (hpid : strAllWs pid = false) :
    (∀ m, disk = some m → m.project_folder_id = pid →
      syncInit clock tick vp pid disk = (.ok m, disk, tick))
    ∧ (∀ m, disk = some m → m.project_folder_id ≠ pid →
      ∃ e, syncInit clock tick vp pid disk = (.error e, disk, tick))
    ∧ (disk = none →
      ∃ fresh, syncInit clock tick vp pid disk = (.ok fresh, some fresh, tick + 1)
        ∧ fresh.folders = [("", pid)] ∧ fresh.files = [] ∧ fresh.resources = []
        ∧ fresh.project_folder_id = pid) := by
  refine ⟨?_, ?_, ?_⟩
  · intro m hd hm
    subst hd
    simp [syncInit, hvp, hpid, hm]
  · intro m hd hm
    subst hd
    refine ⟨"This vault is already linked to a different NexusMap project. Remove .nexusmap/sync.json to relink.", ?_⟩
    simp [syncInit, hvp, hpid, hm]
  · intro hd
    subst hd
    refine ⟨⟨1, vp, pid, clock tick, clock tick, "", "", [("", pid)], [], []⟩, ?_, rfl, rfl, rfl, rfl⟩
    simp [syncInit, hvp, hpid]

/-- Witness for C6 at a concrete vault, project, and existing record. -/
theorem C6_witness :
    syncInit (constClock "T") 0 "/v" "P" (some mappingP) = (.ok mappingP, some mappingP, 0) :=
  (C6_idempotent_init (constClock "T") 0 "/v" "P" (some mappingP)
    (by decide) (by decide)).1 mappingP rfl (by decide)

/-! ## C8: token refresh -/

theorem refresh_trace_shape {α : Type} (env : SendEnv α) (auth : SupabaseAuth) :
    (refreshAccessToken env auth).2 = [] ∨
      ∃ rt, auth.refresh_token = some rt ∧
        (refreshAccessToken env auth).2 = [.refreshPost rt] := by
  unfold refreshAccessToken
  match h : auth.refresh_token with
  | none => left; rfl
  | some rt =>
    right
    refine ⟨rt, rfl, ?_⟩
    by_cases hs : isSuccessStatus (env.refreshResp rt).status = true
    · simp [hs]
      match env.refreshDecode (env.refreshResp rt).body with
      | .error e => rfl
      | .ok json => rfl
    · simp [hs]

/-- C8 (amended): on a non-401 first response, no refresh and no retry occur;
on a 401, the wrapper invokes the refresh routine once (at most one refresh
POST is issued) — when the refresh succeeds the original request is retried
exactly once with the refreshed token and the retry's parse result is
returned whatever its status, and when the refresh fails its error is
returned with no retry (one send in total). -/
theorem C8_amended {α : Type} (env : SendEnv α) (auth : SupabaseAuth) :
    ((env.send auth.access_token).status ≠ 401 →
      sendWithRefresh env auth =
        (env.parse (env.send auth.access_token), auth, [.send auth.access_token]))
    ∧ ((env.send auth.access_token).status = 401 →
      ((sendWithRefresh env auth).2.2.countP (fun a => !a.isSend) ≤ 1)
      ∧ (∀ auth2 tr, refreshAccessToken env auth = (.ok auth2, tr) →
          sendWithRefresh env auth =
            (env.parse (env.send auth2.access_token), auth2,
              .send auth.access_token :: tr ++ [.send auth2.access_token]))
      ∧ (∀ e tr, refreshAccessToken env auth = (.error e, tr) →
          sendWithRefresh env auth = (.error e, auth, .send auth.access_token :: tr)
          ∧ (sendWithRefresh env auth).2.2.countP NetAction.isSend = 1)) := by
  constructor
  · intro h
    unfold sendWithRefresh
    simp [h]
  · intro h
    have hshape := refresh_trace_shape env auth
    refine ⟨?_, ?_, ?_⟩
    · unfold sendWithRefresh
      simp only [h, if_pos rfl]
      match hr : refreshAccessToken env auth with
      | (.error e, tr) =>
        rcases hshape with h1 | ⟨rt, _, h2⟩
        · rw [hr] at h1; simp at h1; simp [h1, List.countP_cons, List.countP_nil, NetAction.isSend]
        · rw [hr] at h2; simp at h2; simp [h2, List.countP_cons, List.countP_nil, NetAction.isSend]
      | (.ok auth2, tr) =>
        rcases hshape with h1 | ⟨rt, _, h2⟩
        · rw [hr] at h1; simp at h1
          simp [h1, List.countP_cons, List.countP_nil, NetAction.isSend]
        · rw [hr] at h2; simp at h2
          simp [h2, List.countP_cons, List.countP_nil, NetAction.isSend]
    · intro auth2 tr hr
      unfold sendWithRefresh
      simp [h, hr]
    · intro e tr hr
      unfold sendWithRefresh
      simp only [h, if_pos rfl, hr]
      rcases hshape with h1 | ⟨rt, _, h2⟩
      · rw [hr] at h1; simp at h1
        simp [h1, List.countP_cons, List.countP_nil, NetAction.isSend]
      · rw [hr] at h2; simp at h2
        simp [h2, List.countP_cons, List.countP_nil, NetAction.isSend]

/-- C8 counterexample: with a 401 first response and a failing refresh POST,
the original request is never retried — the claim's "retried exactly once"
fails (one send happens in total, not two). -/
theorem C8_counterexample :
    (c8Env.send c8Auth.access_token).status = 401
    ∧ (sendWithRefresh c8Env c8Auth).2.2.countP NetAction.isSend = 1
    ∧ (sendWithRefresh c8Env c8Auth).1 = .error "token refresh failed: HTTP 500" := by
  refine ⟨rfl, by decide, by decide⟩

/-- Witness for C8 (amended) at the concrete failing-refresh environment. -/
theorem C8_witness :
    sendWithRefresh c8Env c8Auth =
      (.error "token refresh failed: HTTP 500", c8Auth, [.send "tok", .refreshPost "R"])
    ∧ (sendWithRefresh c8Env c8Auth).2.2.countP NetAction.isSend = 1 :=
  ((C8_amended c8Env c8Auth).2 rfl).2.2 "token refresh failed: HTTP 500" [.refreshPost "R"]
    (by decide)

/-! ## Lemmas about the folder path resolver -/

theorem string_ext_data {a b : String} (h : a.data = b.data) : a = b := by
  cases a
  cases b
  exact congrArg String.mk h

theorem string_length_pos {s : String} (h : s ≠ "") : 0 < s.length := by
  rcases hd : s.data with _ | ⟨c, cs⟩
  · exact absurd (string_ext_data (by rw [hd])) h
  · have hl : s.length = s.data.length := rfl
    rw [hl, hd]
    simp

theorem joinStep_length_lt (cur seg : String) (h : seg ≠ "") :
    cur.length < (joinStep cur seg).length := by
  unfold joinStep
  by_cases hc : cur = ""
  · subst hc
    simpa using string_length_pos h
  · rw [if_neg hc]
    rw [String.length_append, String.length_append]
    have := string_length_pos h
    omega

theorem segsOf_mem_ne {p s : String} (h : s ∈ segsOf p) : s ≠ "" := by
  simp [segsOf] at h
  exact h.2

theorem ensureLoop_folders_isSome (env : PushEnv) (segs : List String) :
    ∀ parentId cur folders summary k,
      (alookup k folders).isSome = true →
      (alookup k (ensureLoop env segs parentId cur folders summary).2.1).isSome = true := by
  induction segs with
  | nil =>
    intro parentId cur folders summary k h
    simpa [ensureLoop] using h
  | cons seg rest ih =>
    intro parentId cur folders summary k h
    unfold ensureLoop
    cases hl : alookup (joinStep cur seg) folders with
    | some id => simpa [hl] using ih _ _ _ _ _ h
    | none =>
      cases hf : env.findFolder parentId seg with
      | some found =>
        simpa [hl, hf, addCall] using ih _ _ _ _ _ (alookup_ainsert_isSome _ _ _ _ h)
      | none =>
        simpa [hl, hf, addCall] using ih _ _ _ _ _ (alookup_ainsert_isSome _ _ _ _ h)

theorem ensureLoop_preserves_short (env : PushEnv) (segs : List String) :
    ∀ parentId cur folders summary k,
      (∀ s ∈ segs, s ≠ "") → k.length ≤ cur.length →
      alookup k (ensureLoop env segs parentId cur folders summary).2.1 = alookup k folders := by
  induction segs with
  | nil =>
    intro parentId cur folders summary k _ _
    simp [ensureLoop]
  | cons seg rest ih =>
    intro parentId cur folders summary k hv hk
    have hseg : seg ≠ "" := hv seg (List.mem_cons_self _ _)
    have hlt : cur.length < (joinStep cur seg).length := joinStep_length_lt cur seg hseg
    have hkne : k ≠ joinStep cur seg := by
      intro he
      rw [he] at hk
      omega
    have hk2 : k.length ≤ (joinStep cur seg).length := by omega
    have hvr : ∀ s ∈ rest, s ≠ "" := fun s hs => hv s (List.mem_cons_of_mem _ hs)
    unfold ensureLoop
    cases hl : alookup (joinStep cur seg) folders with
    | some id => simpa [hl] using ih _ _ _ _ _ hvr hk2
    | none =>
      cases hf : env.findFolder parentId seg with
      | some found =>
        have h1 := ih found (joinStep cur seg) (ainsert (joinStep cur seg) found folders)
          { summary with folders_reused := summary.folders_reused + 1 } k hvr hk2
        simpa [hl, hf, addCall, h1] using alookup_ainsert_ne k _ found folders hkne
      | none =>
        have h1 := ih (env.createFolder parentId seg) (joinStep cur seg)
          (ainsert (joinStep cur seg) (env.createFolder parentId seg) folders)
          { summary with folders_created := summary.folders_created + 1 } k hvr hk2
        simpa [hl, hf, addCall, h1] using
          alookup_ainsert_ne k _ (env.createFolder parentId seg) folders hkne

theorem ensureLoop_idem (env : PushEnv) (segs : List String) :
    ∀ parentId cur folders summary id f2 s2 tr,
      (∀ s ∈ segs, s ≠ "") →
      ensureLoop env segs parentId cur folders summary = (id, f2, s2, tr) →
      ∀ summary3, ensureLoop env segs parentId cur f2 summary3 = (id, f2, summary3, []) := by
  induction segs with
  | nil =>
    intro parentId cur folders summary id f2 s2 tr _ heq summary3
    simp [ensureLoop] at heq
    obtain ⟨h1, h2, _, _⟩ := heq
    subst h1; subst h2
    simp [ensureLoop]
  | cons seg rest ih =>
    intro parentId cur folders summary id f2 s2 tr hv heq summary3
    have hseg : seg ≠ "" := hv seg (List.mem_cons_self _ _)
    have hvr : ∀ s ∈ rest, s ≠ "" := fun s hs => hv s (List.mem_cons_of_mem _ hs)
    unfold ensureLoop at heq ⊢
    cases hl : alookup (joinStep cur seg) folders with
    | some i =>
      simp only [hl] at heq
      have hf2 : alookup (joinStep cur seg) f2 = some i := by
        have hpres := ensureLoop_preserves_short env rest i (joinStep cur seg) folders summary
          (joinStep cur seg) hvr (le_refl _)
        rw [heq] at hpres
        simpa [hl] using hpres
      rw [hf2]
      exact ih _ _ _ _ _ _ _ _ hvr heq summary3
    | none =>
      cases hf : env.findFolder parentId seg with
      | some found =>
        rcases hr : ensureLoop env rest found (joinStep cur seg)
            (ainsert (joinStep cur seg) found folders)
            { summary with folders_reused := summary.folders_reused + 1 } with ⟨id4, f4, s4, tr4⟩
        simp only [hl, hf, hr, addCall, Prod.mk.injEq] at heq
        obtain ⟨h1, h2, _, _⟩ := heq
        subst h1
        subst h2
        have hf2 : alookup (joinStep cur seg) f4 = some found := by
          have hpres := ensureLoop_preserves_short env rest found (joinStep cur seg)
            (ainsert (joinStep cur seg) found folders)
            { summary with folders_reused := summary.folders_reused + 1 }
            (joinStep cur seg) hvr (le_refl _)
          rw [hr] at hpres
          simp only at hpres
          rw [hpres, alookup_ainsert_self]
        rw [hf2]
        exact ih _ _ _ _ _ _ _ _ hvr hr summary3
      | none =>
        rcases hr : ensureLoop env rest (env.createFolder parentId seg) (joinStep cur seg)
            (ainsert (joinStep cur seg) (env.createFolder parentId seg) folders)
            { summary with folders_created := summary.folders_created + 1 } with ⟨id4, f4, s4, tr4⟩
        simp only [hl, hf, hr, addCall, Prod.mk.injEq] at heq
        obtain ⟨h1, h2, _, _⟩ := heq
        subst h1
        subst h2
        have hf2 : alookup (joinStep cur seg) f4 = some (env.createFolder parentId seg) := by
          have hpres := ensureLoop_preserves_short env rest (env.createFolder parentId seg)
            (joinStep cur seg)
            (ainsert (joinStep cur seg) (env.createFolder parentId seg) folders)
            { summary with folders_created := summary.folders_created + 1 }
            (joinStep cur seg) hvr (le_refl _)
          rw [hr] at hpres
          simp only at hpres
          rw [hpres, alookup_ainsert_self]
        rw [hf2]
        exact ih _ _ _ _ _ _ _ _ hvr hr summary3

theorem ensureLoop_creates_le (env : PushEnv) (segs : List String) :
    ∀ parentId cur folders summary,
      ((ensureLoop env segs parentId cur folders summary).2.2.2.countP
        RemoteCall.isCreateFolder) ≤ segs.length := by
  induction segs with
  | nil => intro parentId cur folders summary; simp [ensureLoop]
  | cons seg rest ih =>
    intro parentId cur folders summary
    unfold ensureLoop
    cases hl : alookup (joinStep cur seg) folders with
    | some id =>
      simp only [hl]
      exact le_trans (ih _ _ _ _) (Nat.le_succ_of_le (le_refl _))
    | none =>
      cases hf : env.findFolder parentId seg with
      | some found =>
        simp only [hl, hf, addCall, List.countP_cons, RemoteCall.isCreateFolder]
        have := ih found (joinStep cur seg) (ainsert (joinStep cur seg) found folders)
          { summary with folders_reused := summary.folders_reused + 1 }
        simp only [List.length_cons]
        simp
        omega
      | none =>
        simp only [hl, hf, addCall, List.countP_cons, RemoteCall.isCreateFolder]
        have := ih (env.createFolder parentId seg) (joinStep cur seg)
          (ainsert (joinStep cur seg) (env.createFolder parentId seg) folders)
          { summary with folders_created := summary.folders_created + 1 }
        simp only [List.length_cons]
        simp
        omega

theorem ensureLoop_noop_of_chain (env : PushEnv) (segs : List String) :
    ∀ parentId cur folders summary,
      (∀ r ∈ chainRels cur segs, (alookup r folders).isSome = true) →
      ∃ id, ensureLoop env segs parentId cur folders summary = (id, folders, summary, []) := by
  induction segs with
  | nil => intro parentId cur folders summary _; exact ⟨parentId, by simp [ensureLoop]⟩
  | cons seg rest ih =>
    intro parentId cur folders summary h
    have hhead : (alookup (joinStep cur seg) folders).isSome = true :=
      h _ (by simp [chainRels])
    obtain ⟨i, hi⟩ := Option.isSome_iff_exists.mp hhead
    have htail : ∀ r ∈ chainRels (joinStep cur seg) rest, (alookup r folders).isSome = true :=
      fun r hr => h r (by simp [chainRels, hr])
    obtain ⟨id, hid⟩ := ih i (joinStep cur seg) folders summary htail
    exact ⟨id, by unfold ensureLoop; rw [hi]; exact hid⟩

theorem ensureFolderPath_idem (env : PushEnv) (m : SyncMappingV1) (s : SyncSummary)
    (rel : String) (s3 : SyncSummary) :
    ensureFolderPath env ((ensureFolderPath env m s rel).2.1) s3 rel =
      ((ensureFolderPath env m s rel).1, (ensureFolderPath env m s rel).2.1, s3, []) := by
  by_cases hws : strAllWs rel = true
  · unfold ensureFolderPath
    rw [hws]
    simp
  · rw [Bool.not_eq_true] at hws
    unfold ensureFolderPath
    rw [hws]
    simp only [Bool.false_eq_true, if_neg, if_false]
    rcases hr : ensureLoop env (segsOf rel) m.project_folder_id "" m.folders s
      with ⟨id4, f4, s4, tr4⟩
    have hv : ∀ sg ∈ segsOf rel, sg ≠ "" := fun sg hs => segsOf_mem_ne hs
    have hidem := ensureLoop_idem env (segsOf rel) m.project_folder_id "" m.folders s
      id4 f4 s4 tr4 hv hr s3
    simp only [hr]
    simp only at hidem ⊢
    rw [hidem]

/-! ## C9: the folder resolver -/

/-- C9: `ensure_folder_path("a/b/c")` issues at most 3 remote folder-create
calls; re-invoking it on the resulting mapping issues no remote call, changes
nothing and returns the same folder id; whitespace-only input returns the
project root id with no remote call. -/
theorem C9_folder_resolver :
    (∀ env m s, ((ensureFolderPath env m s "a/b/c").2.2.2.countP
      RemoteCall.isCreateFolder) ≤ 3)
    ∧ (∀ env m s rel id m2 s2 tr,
        ensureFolderPath env m s rel = (id, m2, s2, tr) →
        ∀ s3, ensureFolderPath env m2 s3 rel = (id, m2, s3, []))
    ∧ (∀ env m s rel, strAllWs rel = true →
        ensureFolderPath env m s rel = (m.project_folder_id, m, s, [])) := by
  refine ⟨?_, ?_, ?_⟩
  · intro env m s
    have hws : strAllWs "a/b/c" = false := by decide
    have hsegs : segsOf "a/b/c" = ["a", "b", "c"] := by decide
    unfold ensureFolderPath
    rw [hws]
    simp only [Bool.false_eq_true, if_neg, hsegs]
    exact ensureLoop_creates_le env ["a", "b", "c"] m.project_folder_id "" m.folders s
  · intro env m s rel id m2 s2 tr heq s3
    have hid : (ensureFolderPath env m s rel).1 = id := by rw [heq]
    have hm2 : (ensureFolderPath env m s rel).2.1 = m2 := by rw [heq]
    subst hid
    subst hm2
    exact ensureFolderPath_idem env m s rel s3
  · intro env m s rel hws
    unfold ensureFolderPath
    rw [hws]
    simp

/-- Witness for C9: idempotence of the resolver at a concrete environment,
mapping and the path `a/b/c`. -/
theorem C9_witness :
    ensureFolderPath pushEnvA (ensureFolderPath pushEnvA mappingP emptySummary "a/b/c").2.1
      emptySummary "a/b/c" =
      ((ensureFolderPath pushEnvA mappingP emptySummary "a/b/c").1,
        (ensureFolderPath pushEnvA mappingP emptySummary "a/b/c").2.1, emptySummary, []) :=
  C9_folder_resolver.2.1 pushEnvA mappingP emptySummary "a/b/c"
    (ensureFolderPath pushEnvA mappingP emptySummary "a/b/c").1
    (ensureFolderPath pushEnvA mappingP emptySummary "a/b/c").2.1
    (ensureFolderPath pushEnvA mappingP emptySummary "a/b/c").2.2.1
    (ensureFolderPath pushEnvA mappingP emptySummary "a/b/c").2.2.2
    rfl emptySummary

/-! ## C7: exclusion -/

theorem syncOnePathWithMapping_calls_nonmd (sha detectKind : String → String)
    (clock : Nat → String) (env : PushEnv) (pid rel : String) (w : World)
    (m0 : SyncMappingV1) (updated_at : String)
    (hex : (alookup rel w.fsFiles).isSome = true)
    (hdir : w.fsDirs.contains rel = false)
    (hmd : (extensionOf rel).getD "" ≠ "md") :
    (syncOnePathWithMapping sha detectKind clock env pid rel w m0 updated_at).calls = [] := by
  unfold syncOnePathWithMapping
  by_cases hpid : m0.project_folder_id ≠ pid
  · simp [hpid]
  · have hdir2 : rel ∉ w.fsDirs := by simpa using hdir
    simp [hpid, hex, hdir, hdir2, hmd]

theorem syncOnePathCore_calls_nonmd (sha detectKind : String → String)
    (clock : Nat → String) (env : PushEnv) (vaultPath pid rel : String) (w : World)
    (hex : (alookup rel w.fsFiles).isSome = true)
    (hdir : w.fsDirs.contains rel = false)
    (hmd : (extensionOf rel).getD "" ≠ "md") :
    (syncOnePathCore sha detectKind clock env vaultPath pid rel w).calls = [] := by
  unfold syncOnePathCore
  cases hd : w.mappingDisk with
  | some m =>
    simp only [hd]
    exact syncOnePathWithMapping_calls_nonmd sha detectKind clock env pid rel _ m _ hex hdir hmd
  | none =>
    simp only [hd]
    rcases hsi : syncInit clock (w.tick + 1) vaultPath pid none with ⟨res, disk2, t2⟩
    cases res with
    | error e => simp [hsi]
    | ok m =>
      simp only [hsi]
      exact syncOnePathWithMapping_calls_nonmd sha detectKind clock env pid rel _ m _ hex hdir hmd

/-- C7: a push invocation whose path is outside the vault, has a `.nexusmap`
component, resolves under `resources/` or `rag/`, or names an existing
non-directory file whose extension is not `md`, issues no remote call. -/
theorem C7_exclusion (sha detectKind : String → String) (clock : Nat → String)
    (env : PushEnv) (vaultPath : String) (rootComps absComps : List String) (pid : String)
    (w : World)
    (h : rootComps.isPrefixOf absComps = false
      ∨ absComps.contains ".nexusmap" = true
      ∨ ((joinSlash (absComps.drop rootComps.length) = "resources")
          || strStartsWith (joinSlash (absComps.drop rootComps.length)) "resources/") = true
      ∨ ((joinSlash (absComps.drop rootComps.length) = "rag")
          || strStartsWith (joinSlash (absComps.drop rootComps.length)) "rag/") = true
      ∨ ((alookup (joinSlash (absComps.drop rootComps.length)) w.fsFiles).isSome = true
          ∧ w.fsDirs.contains (joinSlash (absComps.drop rootComps.length)) = false
          ∧ (extensionOf (joinSlash (absComps.drop rootComps.length))).getD "" ≠ "md")) :
    (syncOnePath sha detectKind clock env vaultPath rootComps absComps pid w).calls = [] := by
  by_cases hp : rootComps.isPrefixOf absComps = false
  · unfold syncOnePath
    simp [hp]
  · rw [Bool.not_eq_false] at hp
    by_cases hn : absComps.contains ".nexusmap" = true
    · have hn2 : ".nexusmap" ∈ absComps := by simpa using hn
      unfold syncOnePath
      simp [hp, hn2]
    · rw [Bool.not_eq_true] at hn
      have hn2 : ".nexusmap" ∉ absComps := by simpa using hn
      by_cases hr1 : ((joinSlash (absComps.drop rootComps.length) = "resources")
          || strStartsWith (joinSlash (absComps.drop rootComps.length)) "resources/") = true
      · have hr1b := hr1
        simp only [Bool.or_eq_true, decide_eq_true_eq] at hr1b
        unfold syncOnePath
        simp [hp, hn2, hr1b]
      · rw [Bool.not_eq_true] at hr1
        have hr1b := hr1
        simp only [Bool.or_eq_false_iff, decide_eq_false_iff_not] at hr1b
        by_cases hr2 : ((joinSlash (absComps.drop rootComps.length) = "rag")
            || strStartsWith (joinSlash (absComps.drop rootComps.length)) "rag/") = true
        · have hr2b := hr2
          simp only [Bool.or_eq_true, decide_eq_true_eq] at hr2b
          unfold syncOnePath
          simp [hp, hn2, hr1b.1, hr1b.2, hr2b]
        · rw [Bool.not_eq_true] at hr2
          have hr2b := hr2
          simp only [Bool.or_eq_false_iff, decide_eq_false_iff_not] at hr2b
          have hred : syncOnePath sha detectKind clock env vaultPath rootComps absComps pid w =
              syncOnePathCore sha detectKind clock env vaultPath pid
                (joinSlash (absComps.drop rootComps.length)) w := by
            unfold syncOnePath
            simp [hp, hn2, hr1b.1, hr1b.2, hr2b.1, hr2b.2]
          rcases h with h | h | h | h | h
          · rw [h] at hp; simp at hp
          · exact absurd (by simpa using h) hn2
          · rw [h] at hr1; simp at hr1
          · rw [h] at hr2; simp at hr2
          · obtain ⟨hex, hdir, hmd⟩ := h
            rw [hred]
            exact syncOnePathCore_calls_nonmd sha detectKind clock env vaultPath pid _ w
              hex hdir hmd

/-- Witness for C7: a path with a `.nexusmap` component issues no remote call. -/
theorem C7_witness :
    (syncOnePath (constFun "H") (constFun "note") (constClock "T") pushEnvA "/v"
      ["v"] ["v", ".nexusmap", "sync.json"] "P" worldP).calls = [] :=
  C7_exclusion (constFun "H") (constFun "note") (constClock "T") pushEnvA "/v"
    ["v"] ["v", ".nexusmap", "sync.json"] "P" worldP (Or.inr (Or.inl (by decide)))

/-! ## C3: deletion archival -/

/-- C3: when `sync_one_path` runs on a vanished path that is still mapped, it
fetches the remote backup, writes it into the trash before issuing the remote
DELETE (the fetch precedes the delete in the call trace and the trash gains
the remote content), removes the mapping entry, emits one `delete` event and
leaves the vault files untouched; on a vanished path with no mapping entry it
makes no remote call and changes no state. -/
theorem C3_deletion_archival (sha detectKind : String → String) (clock : Nat → String)
    (env : PushEnv) (vaultPath : String) (rootComps absComps : List String) (pid : String)
    (w : World) (m : SyncMappingV1) (rel : String)
    (hpre : rootComps.isPrefixOf absComps = true)
    (hnx : absComps.contains ".nexusmap" = false)
    (hrel : joinSlash (absComps.drop rootComps.length) = rel)
    (hres1 : rel ≠ "resources") (hres2 : strStartsWith rel "resources/" = false)
    (hrag1 : rel ≠ "rag") (hrag2 : strStartsWith rel "rag/" = false)
    (hdisk : w.mappingDisk = some m)
    (hpid : m.project_folder_id = pid)
    (hnof : (alookup rel w.fsFiles).isSome = false)
    (hnod : w.fsDirs.contains rel = false) :
    (∀ prev bk, alookup rel m.files = some prev → env.fetchBackup prev.file_id = some bk →
      (syncOnePath sha detectKind clock env vaultPath rootComps absComps pid w).result = .ok ()
      ∧ (syncOnePath sha detectKind clock env vaultPath rootComps absComps pid w).calls =
          [.fetchBackup prev.file_id, .deleteFile prev.file_id]
      ∧ (syncOnePath sha detectKind clock env vaultPath rootComps absComps pid w).world.trash =
          w.trash ++ [⟨clock (w.tick + 1), rel, bk.content.getD ""⟩]
      ∧ (∃ m3, (syncOnePath sha detectKind clock env vaultPath rootComps absComps pid w).world.mappingDisk
            = some m3 ∧ alookup rel m3.files = none)
      ∧ (syncOnePath sha detectKind clock env vaultPath rootComps absComps pid w).world.events =
          w.events ++ [⟨clock (w.tick + 2), "delete", rel, "Deleted remote file_id=" ++ prev.file_id⟩]
      ∧ (syncOnePath sha detectKind clock env vaultPath rootComps absComps pid w).world.fsFiles =
          w.fsFiles)
    ∧ (alookup rel m.files = none →
      (syncOnePath sha detectKind clock env vaultPath rootComps absComps pid w).calls = []
      ∧ (syncOnePath sha detectKind clock env vaultPath rootComps absComps pid w).world.fsFiles = w.fsFiles
      ∧ (syncOnePath sha detectKind clock env vaultPath rootComps absComps pid w).world.fsDirs = w.fsDirs
      ∧ (syncOnePath sha detectKind clock env vaultPath rootComps absComps pid w).world.trash = w.trash
      ∧ (syncOnePath sha detectKind clock env vaultPath rootComps absComps pid w).world.events = w.events
      ∧ (syncOnePath sha detectKind clock env vaultPath rootComps absComps pid w).world.mappingDisk
          = w.mappingDisk
      ∧ (syncOnePath sha detectKind clock env vaultPath rootComps absComps pid w).result = .ok ()) := by
  have hn2 : ".nexusmap" ∉ absComps := by simpa using hnx
  have hnod2 : rel ∉ w.fsDirs := by simpa using hnod
  have hred : syncOnePath sha detectKind clock env vaultPath rootComps absComps pid w =
      syncOnePathWithMapping sha detectKind clock env pid rel
        { w with tick := w.tick + 1 } m (clock w.tick) := by
    unfold syncOnePath syncOnePathCore
    rw [hrel]
    simp [hpre, hn2, hres1, hres2, hrag1, hrag2, hdisk]
  constructor
  · intro prev bk hprev hbk
    have hout : syncOnePathWithMapping sha detectKind clock env pid rel
        { w with tick := w.tick + 1 } m (clock w.tick) =
        ⟨.ok (),
          { w with
            trash := w.trash ++ [⟨clock (w.tick + 1), rel, bk.content.getD ""⟩]
            events := w.events ++
              [⟨clock (w.tick + 2), "delete", rel, "Deleted remote file_id=" ++ prev.file_id⟩]
            mappingDisk := some
              { m with
                folders := ainsert "" pid m.folders
                files := aremove rel m.files
                updated_at := clock (w.tick + 3) }
            tick := w.tick + 4 },
          [.fetchBackup prev.file_id, .deleteFile prev.file_id]⟩ := by
      unfold syncOnePathWithMapping
      simp [hpid, hnof, hnod2, hprev, hbk]
    rw [hred, hout]
    refine ⟨rfl, rfl, rfl, ⟨_, rfl, ?_⟩, rfl, rfl⟩
    rw [alookup_aremove]
    simp
  · intro hnone
    have hout : syncOnePathWithMapping sha detectKind clock env pid rel
        { w with tick := w.tick + 1 } m (clock w.tick) =
        ⟨.ok (), { w with tick := w.tick + 1 }, []⟩ := by
      unfold syncOnePathWithMapping
      simp [hpid, hnof, hnod2, hnone]
    rw [hred, hout]
    exact ⟨rfl, rfl, rfl, rfl, rfl, hdisk.symm ▸ rfl, rfl⟩

/-- Witness for C3 at a concrete world with a mapped, locally deleted file. -/
theorem C3_witness :
    (syncOnePath (constFun "H") (constFun "note") (constClock "T") pushEnvA "/v"
      ["v"] ["v", "a", "n.md"] "P" c3World).calls = [.fetchBackup "f1", .deleteFile "f1"]
    ∧ (syncOnePath (constFun "H") (constFun "note") (constClock "T") pushEnvA "/v"
      ["v"] ["v", "a", "n.md"] "P" c3World).world.trash =
        c3World.trash ++ [⟨constClock "T" (c3World.tick + 1), "a/n.md", "body"⟩] := by
  have h := (C3_deletion_archival (constFun "H") (constFun "note") (constClock "T") pushEnvA
    "/v" ["v"] ["v", "a", "n.md"] "P" c3World c5Mapping "a/n.md"
    (by decide) (by decide) (by decide) (by decide) (by decide) (by decide) (by decide)
    rfl rfl (by decide) (by decide)).1
    ⟨"f1", "F", "note", "H", "2024"⟩ ⟨"f1", "n.md", some "body"⟩ (by decide) (by decide)
  exact ⟨h.2.1, h.2.2.1⟩

/-! ## C5: push-hash idempotence -/

/-- C5 counterexample: on an existing `.md` file whose mapping hash matches
its bytes, `sync_one_path` can still issue a remote mutation — when the
parent folder path is missing from `mapping.folders` (a state pull can
produce), the resolver POSTs a folder create before the hash short-circuit is
reached. -/
theorem C5_counterexample :
    alookup "a/n.md" c5World.fsFiles = some "x"
    ∧ (alookup "a/n.md" c5Mapping.files).map (fun fm => fm.local_hash) =
        some (constFun "H" "x")
    ∧ (syncOnePath (constFun "H") (constFun "note") (constClock "T") pushEnvA "/v"
        ["v"] ["v", "a", "n.md"] "P" c5World).calls.any RemoteCall.isMutation = true := by
  refine ⟨by decide, by decide, by decide⟩

/-- C5 (amended): if `sync_one_path` runs on an existing `.md` file whose
mapping entry's hash equals the hash of its bytes and every prefix of its
parent folder path is already present in `mapping.folders` (as it is
immediately after a successful push of that file), the call issues no remote
call at all, does not rewrite the mapping file, writes nothing locally, and
emits no event. -/
theorem C5_amended (sha detectKind : String → String) (clock : Nat → String)
    (env : PushEnv) (vaultPath : String) (rootComps absComps : List String) (pid : String)
    (w : World) (m : SyncMappingV1) (rel content : String) (prev : FileMappingV1)
    (hpre : rootComps.isPrefixOf absComps = true)
    (hnx : absComps.contains ".nexusmap" = false)
    (hrel : joinSlash (absComps.drop rootComps.length) = rel)
    (hres1 : rel ≠ "resources") (hres2 : strStartsWith rel "resources/" = false)
    (hrag1 : rel ≠ "rag") (hrag2 : strStartsWith rel "rag/" = false)
    (hdisk : w.mappingDisk = some m)
    (hpid : m.project_folder_id = pid)
    (hfile : alookup rel w.fsFiles = some content)
    (hnod : w.fsDirs.contains rel = false)
    (hmd : (extensionOf rel).getD "" = "md")
    (hprev : alookup rel m.files = some prev)
    (hhash : prev.local_hash = sha content)
    (hchain : ∀ r ∈ chainRels ""
        (segsOf (if parentOfPath rel = "." then "" else parentOfPath rel)),
      (alookup r (ainsert "" pid m.folders)).isSome = true) :
    (syncOnePath sha detectKind clock env vaultPath rootComps absComps pid w).result = .ok ()
    ∧ (syncOnePath sha detectKind clock env vaultPath rootComps absComps pid w).calls = []
    ∧ (syncOnePath sha detectKind clock env vaultPath rootComps absComps pid w).world.mappingDisk
        = w.mappingDisk
    ∧ (syncOnePath sha detectKind clock env vaultPath rootComps absComps pid w).world.events
        = w.events
    ∧ (syncOnePath sha detectKind clock env vaultPath rootComps absComps pid w).world.fsFiles
        = w.fsFiles
    ∧ (syncOnePath sha detectKind clock env vaultPath rootComps absComps pid w).world.trash
        = w.trash := by
  have hn2 : ".nexusmap" ∉ absComps := by simpa using hnx
  have hnod2 : rel ∉ w.fsDirs := by simpa using hnod
  have hex : (alookup rel w.fsFiles).isSome = true := by rw [hfile]; rfl
  have hred : syncOnePath sha detectKind clock env vaultPath rootComps absComps pid w =
      syncOnePathWithMapping sha detectKind clock env pid rel
        { w with tick := w.tick + 1 } m (clock w.tick) := by
    unfold syncOnePath syncOnePathCore
    rw [hrel]
    simp [hpre, hn2, hres1, hres2, hrag1, hrag2, hdisk]
  have hens : ∃ idf,
      ensureFolderPath env { m with folders := ainsert "" pid m.folders } emptySummary
        (if parentOfPath rel = "." then "" else parentOfPath rel) =
      (idf, { m with folders := ainsert "" pid m.folders }, emptySummary, []) := by
    by_cases hws : strAllWs (if parentOfPath rel = "." then "" else parentOfPath rel) = true
    · refine ⟨({ m with folders := ainsert "" pid m.folders } : SyncMappingV1).project_folder_id, ?_⟩
      unfold ensureFolderPath
      rw [hws]
      simp
    · rw [Bool.not_eq_true] at hws
      obtain ⟨idf, hidf⟩ := ensureLoop_noop_of_chain env
        (segsOf (if parentOfPath rel = "." then "" else parentOfPath rel))
        ({ m with folders := ainsert "" pid m.folders } : SyncMappingV1).project_folder_id ""
        (ainsert "" pid m.folders) emptySummary hchain
      refine ⟨idf, ?_⟩
      unfold ensureFolderPath
      rw [hws]
      simp only [Bool.false_eq_true, if_false]
      rw [hidf]
  obtain ⟨idf, hens⟩ := hens
  have hout : syncOnePathWithMapping sha detectKind clock env pid rel
      { w with tick := w.tick + 1 } m (clock w.tick) =
      ⟨.ok (), { w with tick := w.tick + 1 }, []⟩ := by
    unfold syncOnePathWithMapping
    rw [hpid] at hens
    simp [hpid, hex, hnod2, hmd, hens, hfile, hprev, hhash]
  rw [hred, hout]
  exact ⟨rfl, rfl, hdisk.symm ▸ rfl, rfl, rfl, rfl⟩

/-- Witness for C5 (amended) at a world whose folder chain is mapped. -/
theorem C5_witness :
    (syncOnePath (constFun "H") (constFun "note") (constClock "T") pushEnvA "/v"
      ["v"] ["v", "a", "n.md"] "P" c5ChainWorld).calls = []
    ∧ (syncOnePath (constFun "H") (constFun "note") (constClock "T") pushEnvA "/v"
      ["v"] ["v", "a", "n.md"] "P" c5ChainWorld).world.mappingDisk =
        c5ChainWorld.mappingDisk := by
  have h := C5_amended (constFun "H") (constFun "note") (constClock "T") pushEnvA "/v"
    ["v"] ["v", "a", "n.md"] "P" c5ChainWorld c5ChainMapping "a/n.md" "x"
    ⟨"f1", "F", "note", "H", "2024"⟩
    (by decide) (by decide) (by decide) (by decide) (by decide) (by decide) (by decide)
    rfl rfl (by decide) (by decide) (by decide) (by decide) rfl (by decide)
  exact ⟨h.2.1, h.2.2.1⟩

/-! ## C4: remote-deletion reconciliation -/

theorem reconcileFilesLoop_files_none (clock : Nat → String) (rels : List String) :
    ∀ st rel, alookup rel st.mapping.files = none →
      alookup rel (reconcileFilesLoop clock rels st).mapping.files = none := by
  induction rels with
  | nil => intro st rel h; simpa [reconcileFilesLoop] using h
  | cons r rest ih =>
    intro st rel h
    unfold reconcileFilesLoop
    apply ih
    simp only [alookup_aremove]
    by_cases he : rel = r
    · simp [he]
    · simp [he, h]

theorem reconcileFilesLoop_removes (clock : Nat → String) (rels : List String) :
    ∀ st rel, rel ∈ rels →
      alookup rel (reconcileFilesLoop clock rels st).mapping.files = none := by
  induction rels with
  | nil => intro st rel h; simp at h
  | cons r rest ih =>
    intro st rel h
    by_cases he : rel = r
    · subst he
      unfold reconcileFilesLoop
      apply reconcileFilesLoop_files_none
      simp [alookup_aremove]
    · have h2 : rel ∈ rest := by
        rcases List.mem_cons.mp h with h3 | h3
        · exact absurd h3 he
        · exact h3
      unfold reconcileFilesLoop
      exact ih _ rel h2

theorem reconcileFilesLoop_events_count (clock : Nat → String) (rels : List String) :
    ∀ st rel,
      (reconcileFilesLoop clock rels st).events.countP
          (fun e => e.kind == "pull_delete" && e.path == rel) =
        st.events.countP (fun e => e.kind == "pull_delete" && e.path == rel)
          + rels.count rel := by
  induction rels with
  | nil => intro st rel; simp [reconcileFilesLoop]
  | cons r rest ih =>
    intro st rel
    unfold reconcileFilesLoop
    rw [ih]
    simp only [List.countP_append, List.countP_cons, List.countP_nil]
    by_cases he : r = rel
    · subst he
      simp [List.count_cons]
      omega
    · rw [List.count_cons]
      simp [he, Ne.symm he]

theorem reconcileFilesLoop_trash_grows (clock : Nat → String) (rels : List String) :
    ∀ st x, x ∈ st.trash → x ∈ (reconcileFilesLoop clock rels st).trash := by
  induction rels with
  | nil => intro st x h; simpa [reconcileFilesLoop] using h
  | cons r rest ih =>
    intro st x h
    unfold reconcileFilesLoop
    apply ih
    unfold archiveFileToTrash
    cases hc : alookup r st.fsFiles <;> simp [h]

theorem reconcileFilesLoop_trash (clock : Nat → String) (rels : List String) :
    ∀ st rel c, rel ∈ rels → alookup rel st.fsFiles = some c →
      ∃ ts, (⟨ts, rel, c⟩ : TrashEntry) ∈ (reconcileFilesLoop clock rels st).trash := by
  induction rels with
  | nil => intro st rel c h; simp at h
  | cons r rest ih =>
    intro st rel c hmem hc
    by_cases he : rel = r
    · subst he
      refine ⟨clock st.tick, ?_⟩
      unfold reconcileFilesLoop
      apply reconcileFilesLoop_trash_grows
      unfold archiveFileToTrash
      simp [hc]
    · have h2 : rel ∈ rest := by
        rcases List.mem_cons.mp hmem with h3 | h3
        · exact absurd h3 he
        · exact h3
      unfold reconcileFilesLoop
      apply ih _ rel c h2
      unfold archiveFileToTrash
      cases hl : alookup r st.fsFiles with
      | none => simpa using hc
      | some c2 =>
        simp only [alookup_aremove]
        simp [he, hc]

theorem reconcileFilesLoop_deleted_count (clock : Nat → String) (rels : List String) :
    ∀ st, (reconcileFilesLoop clock rels st).summary.files_deleted =
      st.summary.files_deleted + rels.length := by
  induction rels with
  | nil => intro st; simp [reconcileFilesLoop]
  | cons r rest ih =>
    intro st
    unfold reconcileFilesLoop
    rw [ih]
    simp only [List.length_cons]
    omega

theorem mem_filesToRemove (ids : List String) (m : SyncMappingV1) (rel : String)
    (fm : FileMappingV1) (h : alookup rel m.files = some fm)
    (hids : ids.contains fm.file_id = false) : rel ∈ filesToRemove ids m := by
  unfold filesToRemove
  have hmem := alookup_mem rel fm m.files h
  refine List.mem_map.mpr ⟨(rel, fm), ?_, rfl⟩
  refine List.mem_filter.mpr ⟨hmem, ?_⟩
  simpa using hids

theorem filesToRemove_nodup (ids : List String) (m : SyncMappingV1)
    (hnd : (m.files.map Prod.fst).Nodup) : (filesToRemove ids m).Nodup := by
  unfold filesToRemove
  exact hnd.sublist ((List.filter_sublist _).map Prod.fst)

theorem reconcileResourcesLoop_resources_none (clock : Nat → String) (rels : List String) :
    ∀ st rel, alookup rel st.mapping.resources = none →
      alookup rel (reconcileResourcesLoop clock rels st).mapping.resources = none := by
  induction rels with
  | nil => intro st rel h; simpa [reconcileResourcesLoop] using h
  | cons r rest ih =>
    intro st rel h
    unfold reconcileResourcesLoop
    apply ih
    simp only [alookup_aremove]
    by_cases he : rel = r
    · simp [he]
    · simp [he, h]

theorem reconcileResourcesLoop_removes (clock : Nat → String) (rels : List String) :
    ∀ st rel, rel ∈ rels →
      alookup rel (reconcileResourcesLoop clock rels st).mapping.resources = none := by
  induction rels with
  | nil => intro st rel h; simp at h
  | cons r rest ih =>
    intro st rel h
    by_cases he : rel = r
    · subst he
      unfold reconcileResourcesLoop
      apply reconcileResourcesLoop_resources_none
      simp [alookup_aremove]
    · have h2 : rel ∈ rest := by
        rcases List.mem_cons.mp h with h3 | h3
        · exact absurd h3 he
        · exact h3
      unfold reconcileResourcesLoop
      exact ih _ rel h2

theorem reconcileResourcesLoop_events_count (clock : Nat → String) (rels : List String) :
    ∀ st rel,
      (reconcileResourcesLoop clock rels st).events.countP
          (fun e => e.kind == "pull_delete" && e.path == rel) =
        st.events.countP (fun e => e.kind == "pull_delete" && e.path == rel)
          + rels.count rel := by
  induction rels with
  | nil => intro st rel; simp [reconcileResourcesLoop]
  | cons r rest ih =>
    intro st rel
    unfold reconcileResourcesLoop
    rw [ih]
    simp only [List.countP_append, List.countP_cons, List.countP_nil]
    by_cases he : r = rel
    · subst he
      simp [List.count_cons]
      omega
    · rw [List.count_cons]
      simp [he, Ne.symm he]

theorem reconcileResourcesLoop_trash_grows (clock : Nat → String) (rels : List String) :
    ∀ st x, x ∈ st.trash → x ∈ (reconcileResourcesLoop clock rels st).trash := by
  induction rels with
  | nil => intro st x h; simpa [reconcileResourcesLoop] using h
  | cons r rest ih =>
    intro st x h
    unfold reconcileResourcesLoop
    apply ih
    unfold archiveFileToTrash
    cases hc : alookup r st.fsFiles <;> simp [h]

theorem reconcileResourcesLoop_trash (clock : Nat → String) (rels : List String) :
    ∀ st rel c, rel ∈ rels → alookup rel st.fsFiles = some c →
      ∃ ts, (⟨ts, rel, c⟩ : TrashEntry) ∈ (reconcileResourcesLoop clock rels st).trash := by
  induction rels with
  | nil => intro st rel c h; simp at h
  | cons r rest ih =>
    intro st rel c hmem hc
    by_cases he : rel = r
    · subst he
      refine ⟨clock st.tick, ?_⟩
      unfold reconcileResourcesLoop
      apply reconcileResourcesLoop_trash_grows
      unfold archiveFileToTrash
      simp [hc]
    · have h2 : rel ∈ rest := by
        rcases List.mem_cons.mp hmem with h3 | h3
        · exact absurd h3 he
        · exact h3
      unfold reconcileResourcesLoop
      apply ih _ rel c h2
      unfold archiveFileToTrash
      cases hl : alookup r st.fsFiles with
      | none => simpa using hc
      | some c2 =>
        simp only [alookup_aremove]
        simp [he, hc]

theorem reconcileResourcesLoop_deleted_count (clock : Nat → String) (rels : List String) :
    ∀ st, (reconcileResourcesLoop clock rels st).summary.resources_deleted =
      st.summary.resources_deleted + rels.length := by
  induction rels with
  | nil => intro st; simp [reconcileResourcesLoop]
  | cons r rest ih =>
    intro st
    unfold reconcileResourcesLoop
    rw [ih]
    simp only [List.length_cons]
    omega

theorem mem_resourcesToRemove (ids : List String) (m : SyncMappingV1) (rel : String)
    (rm : ResourceMappingV1) (h : alookup rel m.resources = some rm)
    (hids : ids.contains rm.resource_id = false) : rel ∈ resourcesToRemove ids m := by
  unfold resourcesToRemove
  have hmem := alookup_mem rel rm m.resources h
  refine List.mem_map.mpr ⟨(rel, rm), ?_, rfl⟩
  refine List.mem_filter.mpr ⟨hmem, ?_⟩
  simpa using hids

theorem resourcesToRemove_nodup (ids : List String) (m : SyncMappingV1)
    (hnd : (m.resources.map Prod.fst).Nodup) : (resourcesToRemove ids m).Nodup := by
  unfold resourcesToRemove
  exact hnd.sublist ((List.filter_sublist _).map Prod.fst)

/-- C4: the remote-deletion reconciliation of `sync_pull_once`. For every
mapping file entry whose `file_id` is absent from the remote id set: the
entry is removed from `mapping.files`, exactly one `pull_delete` event is
emitted for its path, and when a local copy exists it is archived into the
trash; `files_deleted` grows by the number of such entries. The analogous
facts hold for `mapping.resources` against the remote resource id set. -/
theorem C4_remote_deletion_reconciliation (clock : Nat → String) (ids rids : List String)
    (st : PullSt)
    (hndf : (st.mapping.files.map Prod.fst).Nodup)
    (hndr : (st.mapping.resources.map Prod.fst).Nodup) :
    (∀ rel fm, alookup rel st.mapping.files = some fm → ids.contains fm.file_id = false →
      alookup rel (reconcileFiles clock ids st).mapping.files = none
      ∧ (reconcileFiles clock ids st).events.countP
          (fun e => e.kind == "pull_delete" && e.path == rel) =
        st.events.countP (fun e => e.kind == "pull_delete" && e.path == rel) + 1
      ∧ (∀ c, alookup rel st.fsFiles = some c →
          ∃ ts, (⟨ts, rel, c⟩ : TrashEntry) ∈ (reconcileFiles clock ids st).trash))
    ∧ (reconcileFiles clock ids st).summary.files_deleted =
        st.summary.files_deleted + (filesToRemove ids st.mapping).length
    ∧ (∀ rel rm, alookup rel st.mapping.resources = some rm →
        rids.contains rm.resource_id = false →
      alookup rel (reconcileResources clock rids st).mapping.resources = none
      ∧ (reconcileResources clock rids st).events.countP
          (fun e => e.kind == "pull_delete" && e.path == rel) =
        st.events.countP (fun e => e.kind == "pull_delete" && e.path == rel) + 1
      ∧ (∀ c, alookup rel st.fsFiles = some c →
          ∃ ts, (⟨ts, rel, c⟩ : TrashEntry) ∈ (reconcileResources clock rids st).trash))
    ∧ (reconcileResources clock rids st).summary.resources_deleted =
        st.summary.resources_deleted + (resourcesToRemove rids st.mapping).length := by
  refine ⟨?_, ?_, ?_, ?_⟩
  · intro rel fm h hids
    have hmem := mem_filesToRemove ids st.mapping rel fm h hids
    have hnd := filesToRemove_nodup ids st.mapping hndf
    refine ⟨reconcileFilesLoop_removes clock _ st rel hmem, ?_, ?_⟩
    · unfold reconcileFiles
      rw [reconcileFilesLoop_events_count]
      rw [List.count_eq_one_of_mem hnd hmem]
    · intro c hc
      exact reconcileFilesLoop_trash clock _ st rel c hmem hc
  · exact reconcileFilesLoop_deleted_count clock _ st
  · intro rel rm h hids
    have hmem := mem_resourcesToRemove rids st.mapping rel rm h hids
    have hnd := resourcesToRemove_nodup rids st.mapping hndr
    refine ⟨reconcileResourcesLoop_removes clock _ st rel hmem, ?_, ?_⟩
    · unfold reconcileResources
      rw [reconcileResourcesLoop_events_count]
      rw [List.count_eq_one_of_mem hnd hmem]
    · intro c hc
      exact reconcileResourcesLoop_trash clock _ st rel c hmem hc
  · exact reconcileResourcesLoop_deleted_count clock _ st

/-- Witness for C4 at a concrete state with one remotely deleted file and one
remotely deleted resource. -/
theorem C4_witness :
    alookup "a/n.md" (reconcileFiles (constClock "T") [] c4St).mapping.files = none
    ∧ (reconcileFiles (constClock "T") [] c4St).summary.files_deleted =
        c4St.summary.files_deleted + (filesToRemove [] c4St.mapping).length
    ∧ alookup "resources/r.md"
        (reconcileResources (constClock "T") [] c4St).mapping.resources = none := by
  have h := C4_remote_deletion_reconciliation (constClock "T") [] [] c4St
    (by decide) (by decide)
  refine ⟨(h.1 "a/n.md" ⟨"f1", "F", "note", "H", "2024"⟩ (by decide) (by decide)).1,
    h.2.1,
    (h.2.2.1 "resources/r.md" ⟨"r1", "RH", "2024"⟩ (by decide) (by decide)).1⟩

/-! ## C1: conflict preservation -/

theorem revSplitDot_eq : ∀ (l a b : List Char), revSplitDot l = some (a, b) →
    l = a ++ '.' :: b := by
  intro l
  induction l with
  | nil => intro a b h; simp [revSplitDot] at h
  | cons c cs ih =>
    intro a b h
    unfold revSplitDot at h
    by_cases hc : c = '.'
    · subst hc
      rw [if_pos rfl] at h
      simp only [Option.some.injEq, Prod.mk.injEq] at h
      obtain ⟨h1, h2⟩ := h
      subst h1
      subst h2
      rfl
    · rw [if_neg hc] at h
      cases hr : revSplitDot cs with
      | none => rw [hr] at h; simp at h
      | some p =>
        obtain ⟨a2, b2⟩ := p
        rw [hr] at h
        simp only [Option.map_some', Option.some.injEq, Prod.mk.injEq] at h
        obtain ⟨h1, h2⟩ := h
        subst h1
        subst h2
        rw [List.cons_append, ← ih a2 b2 hr]

theorem string_mk_length (l : List Char) : (String.mk l).length = l.length := rfl

theorem splitExt_none {n : String} (h : (splitExt n).2 = none) : (splitExt n).1 = n := by
  unfold splitExt at h ⊢
  cases hr : revSplitDot n.data.reverse with
  | none => simp
  | some p =>
    obtain ⟨re, rst⟩ := p
    rw [hr] at h
    by_cases hrst : rst = []
    · simp [hrst]
    · simp [hrst] at h

theorem splitExt_some_length {n e : String} (h : (splitExt n).2 = some e) :
    n.length = (splitExt n).1.length + 1 + e.length := by
  unfold splitExt at h ⊢
  cases hr : revSplitDot n.data.reverse with
  | none => rw [hr] at h; simp at h
  | some p =>
    obtain ⟨re, rst⟩ := p
    rw [hr] at h
    by_cases hrst : rst = []
    · simp [hrst] at h
    · simp [hrst] at h ⊢
      rw [← h]
      simp only [string_mk_length, List.length_reverse]
      have hl := revSplitDot_eq _ _ _ hr
      have hlen : n.data.reverse.length = re.length + 1 + rst.length := by
        rw [hl]
        simp [List.length_append]
        omega
      rw [List.length_reverse] at hlen
      have hn : n.length = n.data.length := rfl
      omega

theorem conflictFileName_length (stem ts ext : String) :
    (conflictFileName stem ts ext).length = stem.length + 25 + ts.length + 2 + ext.length := by
  unfold conflictFileName
  rw [String.length_append, String.length_append, String.length_append, String.length_append]
  have h1 : (" (conflict from NexusMap " : String).length = 25 := by decide
  have h2 : ((")." : String)).length = 2 := by decide
  omega

theorem joinSlash_cons_ne {x : String} {l : List String} (h : l ≠ []) :
    joinSlash (x :: l) = x ++ "/" ++ joinSlash l := by
  cases l with
  | nil => exact absurd rfl h
  | cons y ys => rfl

theorem strAppend_cancel_left {a b c : String} (h : a ++ b = a ++ c) : b = c := by
  apply string_ext_data
  have h2 := congrArg String.data h
  rw [String.data_append, String.data_append] at h2
  exact List.append_cancel_left h2

theorem joinSlash_append_singleton_inj : ∀ (d : List String) (x y : String),
    joinSlash (d ++ [x]) = joinSlash (d ++ [y]) → x = y := by
  intro d
  induction d with
  | nil => intro x y h; simpa [joinSlash] using h
  | cons e d2 ih =>
    intro x y h
    rw [List.cons_append, List.cons_append,
      joinSlash_cons_ne (by simp), joinSlash_cons_ne (by simp)] at h
    exact ih x y (strAppend_cancel_left h)

theorem conflict_sibling_ne (rel ts : String)
    (hclean : joinSlash (segsOf rel) = rel) (hne : segsOf rel ≠ []) :
    withFileName rel (conflictFileName ((fileStemOf rel).getD "conflict") ts
      ((extensionOf rel).getD "md")) ≠ rel := by
  intro heq
  have hlast : (segsOf rel).getLast? = some ((segsOf rel).getLast hne) :=
    List.getLast?_eq_getLast _ hne
  have hstem : fileStemOf rel = some (splitExt ((segsOf rel).getLast hne)).1 := by
    unfold fileStemOf lastSegOf
    rw [hlast]
    rfl
  have hext : extensionOf rel = (splitExt ((segsOf rel).getLast hne)).2 := by
    unfold extensionOf lastSegOf
    rw [hlast]
    rfl
  have hdecomp : joinSlash ((segsOf rel).dropLast ++ [(segsOf rel).getLast hne]) = rel := by
    rw [List.dropLast_append_getLast hne]
    exact hclean
  unfold withFileName at heq
  have heq2 : joinSlash ((segsOf rel).dropLast ++ [conflictFileName
      ((fileStemOf rel).getD "conflict") ts ((extensionOf rel).getD "md")]) =
      joinSlash ((segsOf rel).dropLast ++ [(segsOf rel).getLast hne]) := by
    rw [heq]
    exact hdecomp.symm
  have hxy := joinSlash_append_singleton_inj _ _ _ heq2
  rw [hstem, hext] at hxy
  simp only [Option.getD_some] at hxy
  cases hsp : (splitExt ((segsOf rel).getLast hne)).2 with
  | some e =>
    rw [hsp] at hxy
    simp only [Option.getD_some] at hxy
    have hlen := congrArg String.length hxy
    rw [conflictFileName_length] at hlen
    have hlen2 := splitExt_some_length hsp
    omega
  | none =>
    rw [hsp] at hxy
    simp only [Option.getD_none] at hxy
    have hst := splitExt_none hsp
    have hlen := congrArg String.length hxy
    rw [conflictFileName_length, hst] at hlen
    have hmd : ("md" : String).length = 2 := by decide
    omega

/-- C1: when the pull engine processes a remote file row whose target path has
a mapping entry with a non-empty `local_hash` differing from the current local
bytes' hash (local modified) and a remote `updated_at` strictly newer than the
mapping's (remote newer), it writes the remote content to the
`<stem> (conflict from NexusMap <ts>).<ext>` sibling, emits exactly one
`conflict` event, leaves the original path's bytes unchanged, and mutates
neither the mapping nor the trash. -/
theorem C1_conflict_preservation (sha : String → String) (clock : Nat → String)
    (vaultPath pid : String) (byId : List (String × FolderNode))
    (byFileId : List (String × String)) (st : PullSt) (rf : RemoteFileRow)
    (rel : String) (prev : FileMappingV1) (u : String)
    (hrel : pullRelPath byFileId
      (pullFolderRel pid (rf.folder_id.getD pid) st.mapping.folders byId) rf = rel)
    (hprev : alookup rel st.mapping.files = some prev)
    (hph : prev.local_hash ≠ "")
    (hdiff : ((alookup rel st.fsFiles).map sha).getD "" ≠ prev.local_hash)
    (hu : rf.updated_at = some u)
    (hpru : prev.remote_updated_at ≠ "")
    (hnewer : strLtB prev.remote_updated_at u = true)
    (hclean : joinSlash (segsOf rel) = rel)
    (hne : segsOf rel ≠ []) :
    alookup (withFileName rel (conflictFileName ((fileStemOf rel).getD "conflict")
        (clock st.tick) ((extensionOf rel).getD "md")))
      (pullFileStep sha clock vaultPath pid byId byFileId st rf).fsFiles
        = some (rf.content.getD "")
    ∧ alookup rel (pullFileStep sha clock vaultPath pid byId byFileId st rf).fsFiles
        = alookup rel st.fsFiles
    ∧ (pullFileStep sha clock vaultPath pid byId byFileId st rf).events =
        st.events ++ [⟨clock (st.tick + 1), "conflict", rel,
          "Remote update would overwrite local edits. Wrote " ++
            pathDisplay vaultPath (withFileName rel (conflictFileName
              ((fileStemOf rel).getD "conflict") (clock st.tick)
              ((extensionOf rel).getD "md")))⟩]
    ∧ (pullFileStep sha clock vaultPath pid byId byFileId st rf).mapping = st.mapping
    ∧ (pullFileStep sha clock vaultPath pid byId byFileId st rf).trash = st.trash := by
  have hcne := conflict_sibling_ne rel (clock st.tick) hclean hne
  have hdiff2 : ¬ ((alookup rel st.fsFiles).map sha).getD "" = prev.local_hash := hdiff
  have hstep : pullFileStep sha clock vaultPath pid byId byFileId st rf =
      { st with
        fsFiles := ainsert (withFileName rel (conflictFileName
            ((fileStemOf rel).getD "conflict") (clock st.tick)
            ((extensionOf rel).getD "md"))) (rf.content.getD "") st.fsFiles
        fsDirs := pullFolderRel pid (rf.folder_id.getD pid) st.mapping.folders byId :: st.fsDirs
        events := st.events ++ [⟨clock (st.tick + 1), "conflict", rel,
          "Remote update would overwrite local edits. Wrote " ++
            pathDisplay vaultPath (withFileName rel (conflictFileName
              ((fileStemOf rel).getD "conflict") (clock st.tick)
              ((extensionOf rel).getD "md")))⟩]
        conflicts := st.conflicts + 1
        tick := st.tick + 2 } := by
    unfold pullFileStep
    rw [hu]
    simp only [hrel, hprev]
    simp [hph, hdiff2, hpru, hnewer]
  rw [hstep]
  refine ⟨alookup_ainsert_self _ _ _, ?_, rfl, rfl, rfl⟩
  exact alookup_ainsert_ne _ _ _ _ (Ne.symm hcne)

/-- Witness for C1 at a concrete diverged state. -/
theorem C1_witness :
    alookup ("n (conflict from NexusMap T).md")
      (pullFileStep (constFun "HNEW") (constClock "T") "/v" "P" [] [("f1", "n.md")]
        c1St c1Row).fsFiles = some "remote"
    ∧ alookup "n.md"
        (pullFileStep (constFun "HNEW") (constClock "T") "/v" "P" [] [("f1", "n.md")]
          c1St c1Row).fsFiles = alookup "n.md" c1St.fsFiles
    ∧ (pullFileStep (constFun "HNEW") (constClock "T") "/v" "P" [] [("f1", "n.md")]
        c1St c1Row).mapping = c1St.mapping := by
  have h := C1_conflict_preservation (constFun "HNEW") (constClock "T") "/v" "P" []
    [("f1", "n.md")] c1St c1Row "n.md" ⟨"f1", "P", "note", "HOLD", "2023"⟩ "2024"
    (by decide) (by decide) (by decide) (by decide) (by decide) (by decide) (by decide)
    (by decide) (by decide)
  refine ⟨?_, h.2.1, h.2.2.2.1⟩
  have h1 := h.1
  simpa using h1

/-! ## C10: the pull engine's folder BFS -/

theorem wMeasure_pos (folders : List FolderNode) (k : Nat) (x : String) :
    1 ≤ wMeasure folders k x := by
  cases k <;> simp [wMeasure]

theorem wMeasure_stable (folders : List FolderNode) :
    ∀ (k : Nat) (x : String), BoundedChains folders k x →
      wMeasure folders (k + 1) x = wMeasure folders k x := by
  intro k
  induction k with
  | zero =>
    intro x hb
    have hc : childIds folders x = [] := by
      cases hch : childIds folders x with
      | nil => rfl
      | cons c cs =>
        have hedge : FolderEdge folders x c := by
          unfold FolderEdge
          rw [hch]
          exact List.mem_cons_self _ _
        have hchain : List.Chain (FolderEdge folders) x [c] :=
          List.chain_cons.mpr ⟨hedge, List.Chain.nil⟩
        have h1 := hb [c] hchain
        simp at h1
    simp [wMeasure, hc]
  | succ k ih =>
    intro x hb
    show wMeasure folders (k + 1 + 1) x = wMeasure folders (k + 1) x
    unfold wMeasure
    congr 1
    congr 1
    apply List.map_congr_left
    intro c hc
    apply ih
    intro l hl
    have hchain : List.Chain (FolderEdge folders) x (c :: l) :=
      List.chain_cons.mpr ⟨hc, hl⟩
    have h2 := hb (c :: l) hchain
    simp at h2
    omega

theorem subtreeLoop_terminates (folders : List FolderNode) (D : Nat) (pid : String) :
    ∀ fuel out i,
      (∀ x ∈ out, FolderReach folders pid x) →
      (∀ x, FolderReach folders pid x → BoundedChains folders D x) →
      phiMeasure folders D out i ≤ fuel →
      ∃ res, subtreeLoop folders fuel out i = some res := by
  intro fuel
  induction fuel with
  | zero =>
    intro out i hreach hbnd hphi
    by_cases hi : i < out.length
    · exfalso
      have hdrop : out.drop i = out.get ⟨i, hi⟩ :: out.drop (i + 1) :=
        List.drop_eq_getElem_cons hi
      have hone : 1 ≤ phiMeasure folders D out i := by
        unfold phiMeasure
        rw [hdrop]
        simp only [List.map_cons, List.sum_cons]
        have := wMeasure_pos folders D (out.get ⟨i, hi⟩)
        omega
      omega
    · exact ⟨out, by simp [subtreeLoop, hi]⟩
  | succ fuel ih =>
    intro out i hreach hbnd hphi
    by_cases hi : i < out.length
    · have hxo : out.get ⟨i, hi⟩ ∈ out := out.get_mem _ _
      have hxreach := hreach _ hxo
      have hreach2 : ∀ x ∈ out ++ childIds folders (out.get ⟨i, hi⟩),
          FolderReach folders pid x := by
        intro x hx
        rcases List.mem_append.mp hx with hx | hx
        · exact hreach x hx
        · exact Relation.ReflTransGen.tail hxreach hx
      have hw : wMeasure folders D (out.get ⟨i, hi⟩) =
          1 + ((childIds folders (out.get ⟨i, hi⟩)).map (wMeasure folders D)).sum := by
        rw [← wMeasure_stable folders D _ (hbnd _ hxreach)]
        rfl
      have hphi2 : phiMeasure folders D (out ++ childIds folders (out.get ⟨i, hi⟩)) (i + 1) + 1 =
          phiMeasure folders D out i := by
        unfold phiMeasure
        rw [List.drop_append_of_le_length (by omega)]
        rw [List.drop_eq_getElem_cons hi]
        simp only [List.map_append, List.sum_append, List.map_cons, List.sum_cons,
          List.get_eq_getElem]
        simp only [List.get_eq_getElem] at hw
        rw [hw]
        omega
      have hstep : subtreeLoop folders (fuel + 1) out i =
          subtreeLoop folders fuel (out ++ childIds folders (out.get ⟨i, hi⟩)) (i + 1) := by
        rw [subtreeLoop]
        rw [dif_pos hi]
      rw [hstep]
      exact ih _ _ hreach2 hbnd (by omega)
    · exact ⟨out, by simp [subtreeLoop, hi]⟩

theorem subtreeLoop_spec (folders : List FolderNode) (pid : String) :
    ∀ fuel out i res,
      subtreeLoop folders fuel out i = some res →
      (∀ x ∈ out, FolderReach folders pid x) →
      (∀ j, j < i → ∀ hj2 : j < out.length,
        ∀ c ∈ childIds folders (out.get ⟨j, hj2⟩), c ∈ out) →
      (∀ x ∈ out, x ∈ res) ∧ (∀ x ∈ res, FolderReach folders pid x) ∧
        (∀ x ∈ res, ∀ c ∈ childIds folders x, c ∈ res) := by
  intro fuel
  induction fuel with
  | zero =>
    intro out i res h hreach hcl
    rw [subtreeLoop] at h
    by_cases hi : i < out.length
    · rw [if_pos hi] at h
      simp at h
    · rw [if_neg hi] at h
      injection h with h
      subst h
      refine ⟨fun x hx => hx, hreach, ?_⟩
      intro x hx c hc
      obtain ⟨⟨j, hj2⟩, hg⟩ := List.mem_iff_get.mp hx
      exact hcl j (by omega) hj2 c (by rw [hg]; exact hc)
  | succ fuel ih =>
    intro out i res h hreach hcl
    rw [subtreeLoop] at h
    by_cases hi : i < out.length
    · rw [dif_pos hi] at h
      have hxo : out.get ⟨i, hi⟩ ∈ out := out.get_mem _ _
      have hreach2 : ∀ x ∈ out ++ childIds folders (out.get ⟨i, hi⟩),
          FolderReach folders pid x := by
        intro x hx
        rcases List.mem_append.mp hx with hx | hx
        · exact hreach x hx
        · exact Relation.ReflTransGen.tail (hreach _ hxo) hx
      have hcl2 : ∀ j, j < i + 1 → ∀ hj2 : j < (out ++ childIds folders (out.get ⟨i, hi⟩)).length,
          ∀ c ∈ childIds folders ((out ++ childIds folders (out.get ⟨i, hi⟩)).get ⟨j, hj2⟩),
            c ∈ out ++ childIds folders (out.get ⟨i, hi⟩) := by
        intro j hj hj2 c hc
        have hji : j < out.length := by omega
        have hg : (out ++ childIds folders (out.get ⟨i, hi⟩)).get ⟨j, hj2⟩ =
            out.get ⟨j, hji⟩ := by
          simp [List.getElem_append_left, hji]
        rw [hg] at hc
        by_cases hcase : j < i
        · exact List.mem_append.mpr (Or.inl (hcl j hcase hji c hc))
        · have hje : j = i := by omega
          subst hje
          exact List.mem_append.mpr (Or.inr hc)
      have hspec := ih _ _ res h hreach2 hcl2
      exact ⟨fun x hx => hspec.1 x (List.mem_append.mpr (Or.inl hx)), hspec.2.1, hspec.2.2⟩
    · rw [dif_neg hi] at h
      injection h with h
      subst h
      refine ⟨fun x hx => hx, hreach, ?_⟩
      intro x hx c hc
      obtain ⟨⟨j, hj2⟩, hg⟩ := List.mem_iff_get.mp hx
      exact hcl j (by omega) hj2 c (by rw [hg]; exact hc)

theorem reach_mem_of_closed (folders : List FolderNode) (pid : String) (res : List String)
    (hpid : pid ∈ res)
    (hcl : ∀ x ∈ res, ∀ c ∈ childIds folders x, c ∈ res) :
    ∀ x, FolderReach folders pid x → x ∈ res := by
  intro x h
  induction h with
  | refl => exact hpid
  | tail hb hedge ih => exact hcl _ ih _ hedge

theorem chain_mem_transGen {R : String → String → Prop} :
    ∀ (l : List String) (x v : String), List.Chain R x l → v ∈ l →
      Relation.TransGen R x v := by
  intro l
  induction l with
  | nil => intro x v _ hv; simp at hv
  | cons b l2 ih =>
    intro x v hch hv
    obtain ⟨hxb, hch2⟩ := List.chain_cons.mp hch
    rcases List.mem_cons.mp hv with h | h
    · subst h
      exact Relation.TransGen.single hxb
    · exact Relation.TransGen.head hxb (ih b v hch2 h)

theorem chain_dup_cycle {R : String → String → Prop} :
    ∀ (l : List String) (x : String), List.Chain R x l → ¬ (x :: l).Nodup →
      ∃ v, v ∈ x :: l ∧ Relation.TransGen R v v := by
  intro l
  induction l with
  | nil => intro x _ hnd; simp at hnd
  | cons b l2 ih =>
    intro x hch hnd
    obtain ⟨hxb, hch2⟩ := List.chain_cons.mp hch
    rw [List.nodup_cons] at hnd
    by_cases hx : x ∈ b :: l2
    · exact ⟨x, List.mem_cons_self _ _, chain_mem_transGen _ x x hch hx⟩
    · have hnd2 : ¬ (b :: l2).Nodup := by tauto
      obtain ⟨v, hv, hcyc⟩ := ih b hch2 hnd2
      exact ⟨v, List.mem_cons_of_mem _ hv, hcyc⟩

theorem chain_mem_reach (folders : List FolderNode) (pid x v : String) (l : List String)
    (hx : FolderReach folders pid x) (hch : List.Chain (FolderEdge folders) x l)
    (hv : v ∈ x :: l) : FolderReach folders pid v := by
  rcases List.mem_cons.mp hv with h | h
  · subst h
    exact hx
  · exact hx.trans (chain_mem_transGen l x v hch h).to_reflTransGen

theorem reach_mem_vertex (folders : List FolderNode) (pid v : String)
    (h : FolderReach folders pid v) :
    v ∈ insert pid (folders.map FolderNode.id).toFinset := by
  induction h with
  | refl => exact Finset.mem_insert_self _ _
  | tail hb hedge ih =>
    apply Finset.mem_insert_of_mem
    rw [List.mem_toFinset]
    unfold FolderEdge childIds at hedge
    obtain ⟨f, hf, hfc⟩ := List.mem_map.mp hedge
    exact List.mem_map.mpr ⟨f, (List.mem_filter.mp hf).1, hfc⟩

theorem bounded_of_acyclic (folders : List FolderNode) (pid : String)
    (hac : AcyclicFrom folders pid) :
    ∀ x, FolderReach folders pid x → BoundedChains folders (folders.length + 1) x := by
  intro x hx l hch
  by_cases hnd : (x :: l).Nodup
  · have hlen : (x :: l).length ≤ (insert pid (folders.map FolderNode.id).toFinset).card := by
      rw [← List.toFinset_card_of_nodup hnd]
      apply Finset.card_le_card
      intro v hv
      exact reach_mem_vertex folders pid v
        (chain_mem_reach folders pid x v l hx hch (List.mem_toFinset.mp hv))
    have hcard : (insert pid (folders.map FolderNode.id).toFinset).card ≤ folders.length + 1 := by
      have h1 := Finset.card_insert_le pid (folders.map FolderNode.id).toFinset
      have h2 := List.toFinset_card_le (folders.map FolderNode.id)
      rw [List.length_map] at h2
      omega
    simp only [List.length_cons] at hlen
    omega
  · obtain ⟨v, hv, hcyc⟩ := chain_dup_cycle l x hch hnd
    exact absurd hcyc (hac v (chain_mem_reach folders pid x v l hx hch hv))

theorem cyclic_loop_none :
    ∀ fuel out i, (∀ x ∈ out, x ∈ (["P", "A", "B"] : List String)) → i < out.length →
      subtreeLoop cyclicFolders fuel out i = none := by
  intro fuel
  induction fuel with
  | zero =>
    intro out i hmem hi
    rw [subtreeLoop]
    rw [if_pos hi]
  | succ fuel ih =>
    intro out i hmem hi
    rw [subtreeLoop, dif_pos hi]
    have hg3 : out.get ⟨i, hi⟩ = "P" ∨ out.get ⟨i, hi⟩ = "A" ∨ out.get ⟨i, hi⟩ = "B" := by
      simpa using hmem _ (out.get_mem _ _)
    have hch : childIds cyclicFolders (out.get ⟨i, hi⟩) = ["A"] ∨
        childIds cyclicFolders (out.get ⟨i, hi⟩) = ["B"] := by
      rcases hg3 with h | h | h <;> rw [h]
      · left; decide
      · right; decide
      · left; decide
    apply ih
    · intro x hx
      rcases List.mem_append.mp hx with hx | hx
      · exact hmem x hx
      · rcases hch with h | h <;> rw [h] at hx <;> simp at hx <;> subst hx <;> simp
    · rcases hch with h | h <;> rw [h] <;> simp [List.length_append] <;> omega

/-- C10: the worklist of `compute_subtree_folder_ids` terminates whenever the
parent/child edges reachable from the project root are acyclic, and it then
returns exactly the folder ids reachable from the root; because the loop
keeps no visited set, acyclicity is necessary — on a concrete cyclic folder
list the loop exhausts every fuel bound. -/
theorem C10_subtree_bfs :
    (∀ folders pid, AcyclicFrom folders pid →
      ∃ fuel res, computeSubtreeFolderIds pid folders fuel = some res
        ∧ ∀ x, x ∈ res ↔ FolderReach folders pid x)
    ∧ (∀ fuel, computeSubtreeFolderIds "P" cyclicFolders fuel = none) := by
  constructor
  · intro folders pid hac
    have hbnd := bounded_of_acyclic folders pid hac
    have hreach0 : ∀ x ∈ ([pid] : List String), FolderReach folders pid x := by
      intro x hx
      simp at hx
      subst hx
      exact Relation.ReflTransGen.refl
    obtain ⟨res, hres⟩ := subtreeLoop_terminates folders (folders.length + 1) pid
      (phiMeasure folders (folders.length + 1) [pid] 0) [pid] 0 hreach0 hbnd (le_refl _)
    have hspec := subtreeLoop_spec folders pid _ [pid] 0 res hres hreach0
      (by intro j hj; omega)
    have hpid : pid ∈ res := hspec.1 pid (by simp)
    refine ⟨_, res, hres, fun x => ⟨fun hx => hspec.2.1 x hx, fun hx => ?_⟩⟩
    exact reach_mem_of_closed folders pid res hpid hspec.2.2 x hx
  · intro fuel
    exact cyclic_loop_none fuel ["P"] 0 (by decide) (by decide)

/-- Witness for C10 at a concrete acyclic (empty) folder list. -/
theorem C10_witness :
    ∃ fuel res, computeSubtreeFolderIds "P" [] fuel = some res
      ∧ ∀ x, x ∈ res ↔ FolderReach [] "P" x :=
  C10_subtree_bfs.1 [] "P" (by
    intro x hx h
    cases h with
    | single h1 => simp [FolderEdge, childIds] at h1
    | tail h1 h2 => simp [FolderEdge, childIds] at h2)

/-! ## C2: the files/folders mapping invariant -/

theorem splitChars_ne_nil : ∀ l : List Char, splitChars l ≠ []
  | [] => by simp [splitChars]
  | c :: cs => by
    unfold splitChars
    cases h : splitChars cs with
    | nil => simp
    | cons p ps => by_cases hc : c = '/' <;> simp [hc]

theorem splitChars_no_slash : ∀ l : List Char, '/' ∉ l → splitChars l = [l]
  | [], _ => rfl
  | c :: cs, h => by
    have hc : c ≠ '/' := fun he => h (he ▸ List.mem_cons_self _ _)
    have ih := splitChars_no_slash cs (fun hm => h (List.mem_cons_of_mem _ hm))
    unfold splitChars
    rw [ih]
    simp [hc]

theorem splitChars_append_slash (l ys : List Char) (h : '/' ∉ l) :
    splitChars (l ++ '/' :: ys) = l :: splitChars ys := by
  induction l with
  | nil =>
    simp only [List.nil_append]
    cases hy : splitChars ys with
    | nil => exact absurd hy (splitChars_ne_nil ys)
    | cons p ps =>
      conv_lhs => rw [splitChars]
      rw [hy]
      simp
  | cons c cs ih =>
    have hc : c ≠ '/' := fun he => h (he ▸ List.mem_cons_self _ _)
    have ih2 := ih (fun hm => h (List.mem_cons_of_mem _ hm))
    simp only [List.cons_append]
    conv_lhs => rw [splitChars]
    rw [ih2]
    simp [hc]

theorem string_mk_data (s : String) : String.mk s.data = s := rfl

theorem joinSlash_data_cons (x y : String) (ys : List String) :
    (joinSlash (x :: y :: ys)).data = x.data ++ '/' :: (joinSlash (y :: ys)).data := by
  show (x ++ "/" ++ joinSlash (y :: ys)).data = _
  have hsl : ("/" : String).data = ['/'] := rfl
  simp [String.data_append, hsl]

theorem segsOf_joinSlash : ∀ comps : List String,
    (∀ c ∈ comps, c ≠ "" ∧ '/' ∉ c.data) → segsOf (joinSlash comps) = comps
  | [], _ => rfl
  | [x], h => by
    obtain ⟨hne, hns⟩ := h x (List.mem_cons_self _ _)
    show segsOf x = [x]
    unfold segsOf strSplitSlash
    rw [splitChars_no_slash x.data hns]
    simp [string_mk_data, hne]
  | x :: y :: ys, h => by
    obtain ⟨hne, hns⟩ := h x (List.mem_cons_self _ _)
    have ih := segsOf_joinSlash (y :: ys) (fun c hc => h c (List.mem_cons_of_mem _ hc))
    have h2 : splitChars (joinSlash (x :: y :: ys)).data =
        x.data :: splitChars (joinSlash (y :: ys)).data := by
      rw [joinSlash_data_cons, splitChars_append_slash _ _ hns]
    unfold segsOf strSplitSlash at ih ⊢
    rw [h2]
    simp only [List.map_cons, string_mk_data, List.filter_cons]
    rw [ih]
    simp [hne]

theorem validCompB_spec {c : String} (h : validCompB c = true) :
    c ≠ "" ∧ c ≠ "." ∧ '/' ∉ c.data ∧ strAllWs c = false := by
  simp only [validCompB, Bool.and_eq_true, bne_iff_ne, ne_eq, List.all_eq_true,
    Bool.not_eq_true'] at h
  obtain ⟨⟨⟨h1, h2⟩, h3⟩, h4⟩ := h
  refine ⟨h1, h2, ?_, h4⟩
  intro hm
  have := h3 _ hm
  simp at this

theorem strAllWs_joinSlash {c : String} (rest : List String) (h : strAllWs c = false) :
    strAllWs (joinSlash (c :: rest)) = false := by
  cases rest with
  | nil => exact h
  | cons y ys =>
    unfold strAllWs at h ⊢
    rw [joinSlash_data_cons, List.all_append, h]
    simp

theorem joinSlash_ne_dot (comps : List String)
    (hv : ∀ c ∈ comps, validCompB c = true) : joinSlash comps ≠ "." := by
  intro he
  have hr : segsOf (joinSlash comps) = comps :=
    segsOf_joinSlash comps
      (fun c hc => ⟨(validCompB_spec (hv c hc)).1, (validCompB_spec (hv c hc)).2.2.1⟩)
  rw [he] at hr
  have hdot : segsOf "." = ["."] := by decide
  rw [hdot] at hr
  have hmem : ("." : String) ∈ comps := by rw [← hr]; exact List.mem_cons_self _ _
  exact absurd (hv "." hmem) (by decide)

theorem parentOfPath_joinSlash (comps : List String)
    (hv : ∀ c ∈ comps, validCompB c = true) :
    parentOfPath (joinSlash comps) = joinSlash comps.dropLast := by
  unfold parentOfPath
  rw [segsOf_joinSlash comps
    (fun c hc => ⟨(validCompB_spec (hv c hc)).1, (validCompB_spec (hv c hc)).2.2.1⟩)]

theorem append_slash_ne_empty (a b : String) : a ++ "/" ++ b ≠ "" := by
  intro h
  have h2 := congrArg String.length h
  have h1 : ("/" : String).length = 1 := rfl
  have h0 : ("" : String).length = 0 := rfl
  rw [String.length_append, String.length_append, h1, h0] at h2
  omega

theorem string_append_assoc (a b c : String) : a ++ b ++ c = a ++ (b ++ c) := by
  apply string_ext_data
  simp [String.data_append]

theorem foldl_joinStep_cons : ∀ (segs : List String) (cur : String), cur ≠ "" →
    List.foldl joinStep cur segs = joinSlash (cur :: segs)
  | [], _, _ => rfl
  | s :: ss, cur, h => by
    have hne : joinStep cur s ≠ "" := by
      unfold joinStep
      rw [if_neg h]
      exact append_slash_ne_empty cur s
    have ih := foldl_joinStep_cons ss (joinStep cur s) hne
    show List.foldl joinStep (joinStep cur s) ss = _
    rw [ih]
    unfold joinStep
    rw [if_neg h]
    cases ss with
    | nil => rfl
    | cons t ts =>
      show cur ++ "/" ++ s ++ "/" ++ joinSlash (t :: ts) =
        cur ++ "/" ++ (s ++ "/" ++ joinSlash (t :: ts))
      apply string_ext_data
      simp [String.data_append]

theorem foldl_joinStep_mem_chain : ∀ (segs : List String) (cur : String), segs ≠ [] →
    List.foldl joinStep cur segs ∈ chainRels cur segs
  | [], _, h => absurd rfl h
  | [s], cur, _ => by
    show joinStep cur s ∈ chainRels cur [s]
    simp [chainRels]
  | s :: t :: ts, cur, _ => by
    have ih := foldl_joinStep_mem_chain (t :: ts) (joinStep cur s) (by simp)
    show List.foldl joinStep (joinStep cur s) (t :: ts) ∈ chainRels cur (s :: t :: ts)
    unfold chainRels
    exact List.mem_cons_of_mem _ ih

theorem joinSlash_mem_chainRels (c : String) (rest : List String) (hc : c ≠ "") :
    joinSlash (c :: rest) ∈ chainRels "" (c :: rest) := by
  have hz : joinStep "" c = c := by unfold joinStep; simp
  have h1 : List.foldl joinStep "" (c :: rest) = joinSlash (c :: rest) := by
    show List.foldl joinStep (joinStep "" c) rest = _
    rw [hz, foldl_joinStep_cons rest c hc]
  rw [← h1]
  exact foldl_joinStep_mem_chain (c :: rest) "" (by simp)

theorem ensureLoop_chain_present (env : PushEnv) (segs : List String) :
    ∀ parentId cur folders summary r, r ∈ chainRels cur segs →
      (alookup r (ensureLoop env segs parentId cur folders summary).2.1).isSome = true := by
  induction segs with
  | nil => intro _ _ _ _ r hr; simp [chainRels] at hr
  | cons seg rest ih =>
    intro parentId cur folders summary r hr
    rw [show chainRels cur (seg :: rest) =
      joinStep cur seg :: chainRels (joinStep cur seg) rest from rfl] at hr
    unfold ensureLoop
    cases hl : alookup (joinStep cur seg) folders with
    | some id =>
      simp only [hl]
      rcases List.mem_cons.mp hr with he | hm
      · subst he
        exact ensureLoop_folders_isSome env rest id (joinStep cur seg) folders summary _
          (by rw [hl]; rfl)
      · exact ih _ _ _ _ _ hm
    | none =>
      cases hf : env.findFolder parentId seg with
      | some found =>
        rcases List.mem_cons.mp hr with he | hm
        · subst he
          simpa [hl, hf, addCall] using
            ensureLoop_folders_isSome env rest found (joinStep cur seg)
              (ainsert (joinStep cur seg) found folders)
              { summary with folders_reused := summary.folders_reused + 1 } _
              (by rw [alookup_ainsert_self]; rfl)
        · simpa [hl, hf, addCall] using ih found (joinStep cur seg)
            (ainsert (joinStep cur seg) found folders)
            { summary with folders_reused := summary.folders_reused + 1 } _ hm
      | none =>
        rcases List.mem_cons.mp hr with he | hm
        · subst he
          simpa [hl, hf, addCall] using
            ensureLoop_folders_isSome env rest (env.createFolder parentId seg) (joinStep cur seg)
              (ainsert (joinStep cur seg) (env.createFolder parentId seg) folders)
              { summary with folders_created := summary.folders_created + 1 } _
              (by rw [alookup_ainsert_self]; rfl)
        · simpa [hl, hf, addCall] using ih (env.createFolder parentId seg) (joinStep cur seg)
            (ainsert (joinStep cur seg) (env.createFolder parentId seg) folders)
            { summary with folders_created := summary.folders_created + 1 } _ hm

theorem ensureFolderPath_files (env : PushEnv) (m : SyncMappingV1) (s : SyncSummary)
    (p : String) : (ensureFolderPath env m s p).2.1.files = m.files := by
  unfold ensureFolderPath
  by_cases h : strAllWs p = true
  · rw [if_pos h]
  · rw [if_neg h]

theorem ensureFolderPath_folders_mono (env : PushEnv) (m : SyncMappingV1) (s : SyncSummary)
    (p k : String) (h : (alookup k m.folders).isSome = true) :
    (alookup k (ensureFolderPath env m s p).2.1.folders).isSome = true := by
  unfold ensureFolderPath
  by_cases hws : strAllWs p = true
  · rw [if_pos hws]; exact h
  · rw [if_neg hws]
    exact ensureLoop_folders_isSome env (segsOf p) m.project_folder_id "" m.folders s k h

theorem ensureFolderPath_key_present (env : PushEnv) (m : SyncMappingV1) (s : SyncSummary)
    (comps : List String) (hv : ∀ c ∈ comps, validCompB c = true)
    (hroot : (alookup "" m.folders).isSome = true) :
    (alookup (joinSlash comps)
      (ensureFolderPath env m s (joinSlash comps)).2.1.folders).isSome = true := by
  cases comps with
  | nil => exact ensureFolderPath_folders_mono env m s _ _ hroot
  | cons c rest =>
    have hspec := validCompB_spec (hv c (List.mem_cons_self _ _))
    have hws : strAllWs (joinSlash (c :: rest)) = false := strAllWs_joinSlash rest hspec.2.2.2
    unfold ensureFolderPath
    rw [if_neg (by rw [hws]; exact Bool.false_ne_true)]
    have hsegs : segsOf (joinSlash (c :: rest)) = c :: rest :=
      segsOf_joinSlash _
        (fun x hx => ⟨(validCompB_spec (hv x hx)).1, (validCompB_spec (hv x hx)).2.2.1⟩)
    rw [hsegs]
    exact ensureLoop_chain_present env (c :: rest) m.project_folder_id "" m.folders s _
      (joinSlash_mem_chainRels c rest hspec.1)

theorem inv_after_upsert (m3 m2 m0 : SyncMappingV1) (rel : String) (fm : FileMappingV1)
    (hf3 : m3.files = ainsert rel fm m2.files)
    (hd3 : m3.folders = m2.folders)
    (hfiles : m2.files = m0.files)
    (hmono : ∀ k, (alookup k m0.folders).isSome = true → (alookup k m2.folders).isSome = true)
    (hm : MappingFilesFoldersInv m0)
    (hparent : (alookup (parentOfPath rel) m2.folders).isSome = true) :
    MappingFilesFoldersInv m3 := by
  intro k fmk hk
  rw [hf3] at hk
  rw [hd3]
  by_cases hkr : k = rel
  · subst hkr; exact hparent
  · rw [alookup_ainsert_ne k rel fm m2.files hkr, hfiles] at hk
    exact hmono _ (hm k fmk hk)

theorem inv_after_remove (m3 m0 : SyncMappingV1) (rel : String)
    (hf3 : m3.files = aremove rel m0.files)
    (hmono : ∀ k, (alookup k m0.folders).isSome = true → (alookup k m3.folders).isSome = true)
    (hm : MappingFilesFoldersInv m0) :
    MappingFilesFoldersInv m3 := by
  intro k fmk hk
  rw [hf3, alookup_aremove] at hk
  by_cases hkr : k = rel
  · rw [if_pos hkr] at hk; cases hk
  · rw [if_neg hkr] at hk
    exact hmono _ (hm k fmk hk)

theorem inv_folders_grow (m3 m0 : SyncMappingV1)
    (hf3 : m3.files = m0.files)
    (hmono : ∀ k, (alookup k m0.folders).isSome = true → (alookup k m3.folders).isSome = true)
    (hm : MappingFilesFoldersInv m0) :
    MappingFilesFoldersInv m3 := by
  intro k fmk hk
  rw [hf3] at hk
  exact hmono _ (hm k fmk hk)

theorem syncInit_inv (clock : Nat → String) (tick : Nat) (vp pid : String)
    (disk : Option SyncMappingV1) (hdisk : DiskFoldersInv disk) :
    DiskFoldersInv (syncInit clock tick vp pid disk).2.1
    ∧ (∀ m, (syncInit clock tick vp pid disk).1 = .ok m → MappingFilesFoldersInv m) := by
  unfold syncInit
  by_cases h1 : strAllWs vp = true
  · simp only [h1, if_true]
    exact ⟨hdisk, fun m hm => by cases hm⟩
  · simp only [h1, Bool.false_eq_true, if_false]
    by_cases h2 : strAllWs pid = true
    · simp only [h2, if_true]
      exact ⟨hdisk, fun m hm => by cases hm⟩
    · simp only [h2, Bool.false_eq_true, if_false]
      cases hd : disk with
      | some existing =>
        by_cases h3 : existing.project_folder_id = pid
        · simp only [h3, ne_eq, not_true_eq_false, if_false]
          refine ⟨hd ▸ hdisk, fun m hm => ?_⟩
          injection hm with h4
          subst h4
          exact hdisk existing hd
        · simp only [ne_eq, h3, not_false_eq_true, if_true]
          exact ⟨hd ▸ hdisk, fun m hm => by cases hm⟩
      | none =>
        refine ⟨fun m hm => ?_, fun m hm => ?_⟩
        · injection hm with h4
          subst h4
          intro k fmk hk
          simp [alookup] at hk
        · injection hm with h4
          subst h4
          intro k fmk hk
          simp [alookup] at hk

theorem syncOnePathWithMapping_inv (sha detectKind : String → String) (clock : Nat → String)
    (env : PushEnv) (pid rel ua : String) (w : World) (m0 : SyncMappingV1)
    (comps : List String) (hc : rel = joinSlash comps)
    (hv : ∀ c ∈ comps, validCompB c = true)
    (hdisk : DiskFoldersInv w.mappingDisk)
    (hm : MappingFilesFoldersInv m0) :
    DiskFoldersInv
      (syncOnePathWithMapping sha detectKind clock env pid rel w m0 ua).world.mappingDisk := by
  have hm1 : MappingFilesFoldersInv { m0 with folders := ainsert "" pid m0.folders } :=
    fun k fmk hk => alookup_ainsert_isSome _ _ _ _ (hm k fmk hk)
  by_cases hpid : m0.project_folder_id = pid
  case neg =>
    have hout : (syncOnePathWithMapping sha detectKind clock env pid rel w m0 ua).world.mappingDisk
        = w.mappingDisk := by
      unfold syncOnePathWithMapping
      simp [hpid]
    rw [hout]
    exact hdisk
  case pos =>
  subst hpid
  by_cases hD : rel ∈ w.fsDirs
  · -- directory branch
    rcases hrd : ensureFolderPath env
        { m0 with folders := ainsert "" m0.project_folder_id m0.folders } emptySummary rel
      with ⟨fidd, m2d, s2d, trd⟩
    have hout : (syncOnePathWithMapping sha detectKind clock env m0.project_folder_id rel w m0
        ua).world.mappingDisk = some { m2d with updated_at := clock w.tick } := by
      unfold syncOnePathWithMapping
      simp [hD, hrd]
    rw [hout]
    intro mm hmm
    injection hmm with h4
    subst h4
    refine inv_folders_grow _ m0 ?_ ?_ hm
    · have h5 := ensureFolderPath_files env
        { m0 with folders := ainsert "" m0.project_folder_id m0.folders } emptySummary rel
      rw [hrd] at h5
      exact h5
    · intro k hk
      have h6 := ensureFolderPath_folders_mono env
        { m0 with folders := ainsert "" m0.project_folder_id m0.folders } emptySummary rel k
        (alookup_ainsert_isSome k "" m0.project_folder_id m0.folders hk)
      rw [hrd] at h6
      exact h6
  · by_cases hF : (alookup rel w.fsFiles).isSome = true
    case neg =>
      -- deletion branch
      have hF2 : alookup rel w.fsFiles = none := by
        cases halo : alookup rel w.fsFiles with
        | none => rfl
        | some v => rw [halo] at hF; simp at hF
      cases hprev : alookup rel m0.files with
      | some prev =>
        have hout : (syncOnePathWithMapping sha detectKind clock env m0.project_folder_id rel w
            m0 ua).world.mappingDisk =
            some { m0 with
              folders := ainsert "" m0.project_folder_id m0.folders
              files := aremove rel m0.files
              updated_at := clock (w.tick + 2) } := by
          unfold syncOnePathWithMapping
          simp [hD, hF2, hprev]
        rw [hout]
        intro mm hmm
        injection hmm with h4
        subst h4
        exact inv_after_remove _ { m0 with folders := ainsert "" m0.project_folder_id m0.folders }
          rel rfl (fun k hk => hk) hm1
      | none =>
        have hout : (syncOnePathWithMapping sha detectKind clock env m0.project_folder_id rel w
            m0 ua).world.mappingDisk = w.mappingDisk := by
          unfold syncOnePathWithMapping
          simp [hD, hF2, hprev]
        rw [hout]
        exact hdisk
    case pos =>
      have hFn : alookup rel w.fsFiles ≠ none := by
        intro halo
        rw [halo] at hF
        simp at hF
      by_cases hext : (extensionOf rel).getD "" = "md"
      case neg =>
        have hout : (syncOnePathWithMapping sha detectKind clock env m0.project_folder_id rel w
            m0 ua).world.mappingDisk = w.mappingDisk := by
          unfold syncOnePathWithMapping
          simp [hD, hF, hext]
        rw [hout]
        exact hdisk
      case pos =>
      -- markdown upsert branch
      have hvd : ∀ c ∈ comps.dropLast, validCompB c = true :=
        fun c hc2 => hv c (List.dropLast_subset _ hc2)
      have hpar : (if parentOfPath rel = "." then "" else parentOfPath rel) =
          joinSlash comps.dropLast := by
        rw [hc, parentOfPath_joinSlash comps hv]
        rw [if_neg (joinSlash_ne_dot comps.dropLast hvd)]
      have hppar : parentOfPath rel = joinSlash comps.dropLast := by
        rw [hc, parentOfPath_joinSlash comps hv]
      rcases hr : ensureFolderPath env
          { m0 with folders := ainsert "" m0.project_folder_id m0.folders } emptySummary
          (joinSlash comps.dropLast)
        with ⟨fid, m2, s2, tr⟩
      have hfiles2 : m2.files = m0.files := by
        have h5 := ensureFolderPath_files env
          { m0 with folders := ainsert "" m0.project_folder_id m0.folders } emptySummary
          (joinSlash comps.dropLast)
        rw [hr] at h5
        exact h5
      have hmono2 : ∀ k, (alookup k m0.folders).isSome = true →
          (alookup k m2.folders).isSome = true := by
        intro k hk
        have h6 := ensureFolderPath_folders_mono env
          { m0 with folders := ainsert "" m0.project_folder_id m0.folders } emptySummary
          (joinSlash comps.dropLast) k
          (alookup_ainsert_isSome k "" m0.project_folder_id m0.folders hk)
        rw [hr] at h6
        exact h6
      have hparent2 : (alookup (parentOfPath rel) m2.folders).isSome = true := by
        rw [hppar]
        have h7 := ensureFolderPath_key_present env
          { m0 with folders := ainsert "" m0.project_folder_id m0.folders } emptySummary
          comps.dropLast hvd (by rw [alookup_ainsert_self]; rfl)
        rw [hr] at h7
        exact h7
      cases hprev : alookup rel m2.files with
      | some prev =>
        by_cases hhash : prev.local_hash = sha ((alookup rel w.fsFiles).getD "")
        · have hout : (syncOnePathWithMapping sha detectKind clock env m0.project_folder_id rel
              w m0 ua).world.mappingDisk = w.mappingDisk := by
            unfold syncOnePathWithMapping
            simp [hD, hF, hFn, hext, hpar, hr, hprev, hhash]
          rw [hout]
          exact hdisk
        · have hout : (syncOnePathWithMapping sha detectKind clock env m0.project_folder_id rel
              w m0 ua).world.mappingDisk =
              some { m2 with
                files := ainsert rel
                  ⟨prev.file_id, fid, detectKind ((alookup rel w.fsFiles).getD ""),
                    sha ((alookup rel w.fsFiles).getD ""),
                    (env.updateFile prev.file_id (detectKind ((alookup rel w.fsFiles).getD ""))
                      ((alookup rel w.fsFiles).getD "") ua).updated_at.getD ua⟩ m2.files
                updated_at := clock w.tick } := by
            unfold syncOnePathWithMapping
            simp [hD, hF, hFn, hext, hpar, hr, hprev, hhash]
          rw [hout]
          intro mm hmm
          injection hmm with h4
          subst h4
          exact inv_after_upsert _ m2 m0 rel _ rfl rfl hfiles2 hmono2 hm hparent2
      | none =>
        cases hff : env.findFile fid ((segsOf rel).getLast?.getD "Untitled.md") with
        | none =>
          have hout : (syncOnePathWithMapping sha detectKind clock env m0.project_folder_id rel
              w m0 ua).world.mappingDisk =
              some { m2 with
                files := ainsert rel
                  ⟨(env.createFile fid ((segsOf rel).getLast?.getD "Untitled.md")
                      (detectKind ((alookup rel w.fsFiles).getD ""))
                      ((alookup rel w.fsFiles).getD "") ua).id, fid,
                    detectKind ((alookup rel w.fsFiles).getD ""),
                    sha ((alookup rel w.fsFiles).getD ""),
                    (env.createFile fid ((segsOf rel).getLast?.getD "Untitled.md")
                      (detectKind ((alookup rel w.fsFiles).getD ""))
                      ((alookup rel w.fsFiles).getD "") ua).updated_at.getD ua⟩ m2.files
                updated_at := clock w.tick } := by
            unfold syncOnePathWithMapping
            simp [hD, hF, hFn, hext, hpar, hr, hprev, hff]
          rw [hout]
          intro mm hmm
          injection hmm with h4
          subst h4
          exact inv_after_upsert _ m2 m0 rel _ rfl rfl hfiles2 hmono2 hm hparent2
        | some fid2 =>
          have hout : (syncOnePathWithMapping sha detectKind clock env m0.project_folder_id rel
              w m0 ua).world.mappingDisk =
              some { m2 with
                files := ainsert rel
                  ⟨fid2, fid, detectKind ((alookup rel w.fsFiles).getD ""),
                    sha ((alookup rel w.fsFiles).getD ""),
                    (env.updateFile fid2 (detectKind ((alookup rel w.fsFiles).getD ""))
                      ((alookup rel w.fsFiles).getD "") ua).updated_at.getD ua⟩ m2.files
                updated_at := clock w.tick } := by
            unfold syncOnePathWithMapping
            simp [hD, hF, hFn, hext, hpar, hr, hprev, hff]
          rw [hout]
          intro mm hmm
          injection hmm with h4
          subst h4
          exact inv_after_upsert _ m2 m0 rel _ rfl rfl hfiles2 hmono2 hm hparent2

theorem syncOnePathCore_inv (sha detectKind : String → String) (clock : Nat → String)
    (env : PushEnv) (vaultPath pid rel : String) (w : World) (comps : List String)
    (hc : rel = joinSlash comps) (hv : ∀ c ∈ comps, validCompB c = true)
    (hdisk : DiskFoldersInv w.mappingDisk) :
    DiskFoldersInv
      (syncOnePathCore sha detectKind clock env vaultPath pid rel w).world.mappingDisk := by
  unfold syncOnePathCore
  cases hd : w.mappingDisk with
  | some m =>
    simp only [hd]
    exact syncOnePathWithMapping_inv sha detectKind clock env pid rel (clock w.tick)
      { w with mappingDisk := some m, tick := w.tick + 1 } m comps hc hv
      (fun mm hmm => by injection hmm with h2; subst h2; exact hdisk m hd)
      (hdisk m hd)
  | none =>
    simp only [hd]
    rcases hs0 : syncInit clock (w.tick + 1) vaultPath pid none with ⟨res, disk2, t2⟩
    have hsi := syncInit_inv clock (w.tick + 1) vaultPath pid none (fun m hm => by cases hm)
    rw [hs0] at hsi
    cases res with
    | error e =>
      exact hsi.1
    | ok m =>
      exact syncOnePathWithMapping_inv sha detectKind clock env pid rel (clock w.tick)
        { w with mappingDisk := disk2, tick := t2 } m comps hc hv hsi.1 (hsi.2 m rfl)

theorem syncOnePath_inv (sha detectKind : String → String) (clock : Nat → String)
    (env : PushEnv) (vaultPath : String) (rootComps absComps : List String) (pid : String)
    (w : World)
    (hdisk : DiskFoldersInv w.mappingDisk)
    (hv : ∀ c ∈ absComps.drop rootComps.length, validCompB c = true) :
    DiskFoldersInv
      (syncOnePath sha detectKind clock env vaultPath rootComps absComps pid
        w).world.mappingDisk := by
  unfold syncOnePath
  by_cases h1 : rootComps.isPrefixOf absComps = true
  case neg => simp only [h1, Bool.not_false, if_true]; exact hdisk
  case pos =>
  simp only [h1, Bool.not_true, Bool.false_eq_true, if_false]
  by_cases h2 : absComps.contains ".nexusmap" = true
  · simp only [h2, if_true]; exact hdisk
  · simp only [h2, Bool.false_eq_true, if_false]
    by_cases h3 : (joinSlash (absComps.drop rootComps.length) = "resources" ||
        strStartsWith (joinSlash (absComps.drop rootComps.length)) "resources/") = true
    · simp only [h3, if_true]; exact hdisk
    · simp only [h3, Bool.false_eq_true, if_false]
      by_cases h4 : (joinSlash (absComps.drop rootComps.length) = "rag" ||
          strStartsWith (joinSlash (absComps.drop rootComps.length)) "rag/") = true
      · simp only [h4, if_true]; exact hdisk
      · simp only [h4, Bool.false_eq_true, if_false]
        exact syncOnePathCore_inv sha detectKind clock env vaultPath pid _ w
          (absComps.drop rootComps.length) rfl hv hdisk

theorem importLoop_inv (sha detectKind : String → String) (env : PushEnv)
    (fsFiles : List (String × String)) (ua : String) :
    ∀ (entries : List ImportEntry) (m : SyncMappingV1) (s : SyncSummary),
      MappingFilesFoldersInv m →
      (alookup "" m.folders).isSome = true →
      (∀ e ∈ entries, ∀ c ∈ e.relComps, validCompB c = true) →
      ∀ m2 s2, importLoop sha detectKind env fsFiles ua entries m s = .ok (m2, s2) →
        MappingFilesFoldersInv m2 := by
  intro entries
  induction entries with
  | nil =>
    intro m s hm _ _ m2 s2 heq
    unfold importLoop at heq
    injection heq with h4
    injection h4 with h5 h6
    subst h5
    exact hm
  | cons e rest ih =>
    intro m s hm hroot hv m2 s2 heq
    have hvr : ∀ e2 ∈ rest, ∀ c ∈ e2.relComps, validCompB c = true :=
      fun e2 he2 => hv e2 (List.mem_cons_of_mem _ he2)
    have hve : ∀ c ∈ e.relComps, validCompB c = true := hv e (List.mem_cons_self _ _)
    unfold importLoop at heq
    simp only [] at heq
    split at heq
    · exact ih m s hm hroot hvr m2 s2 heq
    · split at heq
      · exact ih m s hm hroot hvr m2 s2 heq
      · split at heq
        · exact ih m s hm hroot hvr m2 s2 heq
        · split at heq
          · exact ih m s hm hroot hvr m2 s2 heq
          · split at heq
            · -- directory entry: ensure the folder chain, files untouched
              rcases hrd : ensureFolderPath env m s (joinSlash e.relComps)
                with ⟨fidd, mD, sD, trD⟩
              rw [hrd] at heq
              have hfD : mD.files = m.files := by
                have h5 := ensureFolderPath_files env m s (joinSlash e.relComps)
                rw [hrd] at h5
                exact h5
              have hmD : ∀ k, (alookup k m.folders).isSome = true →
                  (alookup k mD.folders).isSome = true := by
                intro k hk
                have h6 := ensureFolderPath_folders_mono env m s (joinSlash e.relComps) k hk
                rw [hrd] at h6
                exact h6
              exact ih mD sD (inv_folders_grow mD m hfD hmD hm) (hmD "" hroot) hvr m2 s2 heq
            · split at heq
              · exact ih m s hm hroot hvr m2 s2 heq
              · -- markdown entry
                split at heq
                · cases heq
                · -- file readable: resolve the parent chain, then upsert
                  have hvd : ∀ c ∈ e.relComps.dropLast, validCompB c = true :=
                    fun c hc2 => hve c (List.dropLast_subset _ hc2)
                  have hparI : (if parentOfPath (joinSlash e.relComps) = "." then ""
                      else parentOfPath (joinSlash e.relComps)) =
                      joinSlash e.relComps.dropLast := by
                    rw [parentOfPath_joinSlash e.relComps hve]
                    rw [if_neg (joinSlash_ne_dot e.relComps.dropLast hvd)]
                  rw [hparI] at heq
                  rcases hr : ensureFolderPath env m s (joinSlash e.relComps.dropLast)
                    with ⟨fid, mB, sB, tr⟩
                  rw [hr] at heq
                  simp only at heq
                  have hfB : mB.files = m.files := by
                    have h5 := ensureFolderPath_files env m s (joinSlash e.relComps.dropLast)
                    rw [hr] at h5
                    exact h5
                  have hmB : ∀ k, (alookup k m.folders).isSome = true →
                      (alookup k mB.folders).isSome = true := by
                    intro k hk
                    have h6 := ensureFolderPath_folders_mono env m s
                      (joinSlash e.relComps.dropLast) k hk
                    rw [hr] at h6
                    exact h6
                  have hparB : (alookup (parentOfPath (joinSlash e.relComps))
                      mB.folders).isSome = true := by
                    rw [parentOfPath_joinSlash e.relComps hve]
                    have h7 := ensureFolderPath_key_present env m s e.relComps.dropLast hvd hroot
                    rw [hr] at h7
                    exact h7
                  split at heq
                  · split at heq
                    · exact ih mB _ (inv_folders_grow mB m hfB hmB hm) (hmB "" hroot) hvr
                        m2 s2 heq
                    · refine ih _ _ ?_ ?_ hvr m2 s2 heq
                      · exact inv_after_upsert _ mB m (joinSlash e.relComps) _ rfl rfl hfB hmB
                          hm hparB
                      · exact hmB "" hroot
                  · split at heq
                    · refine ih _ _ ?_ ?_ hvr m2 s2 heq
                      · exact inv_after_upsert _ mB m (joinSlash e.relComps) _ rfl rfl hfB hmB
                          hm hparB
                      · exact hmB "" hroot
                    · refine ih _ _ ?_ ?_ hvr m2 s2 heq
                      · exact inv_after_upsert _ mB m (joinSlash e.relComps) _ rfl rfl hfB hmB
                          hm hparB
                      · exact hmB "" hroot

theorem syncInitialImport_inv (sha detectKind : String → String) (clock : Nat → String)
    (env : PushEnv) (entries : List ImportEntry) (vaultPath pid : String) (w : World)
    (hdisk : DiskFoldersInv w.mappingDisk)
    (hv : ∀ e ∈ entries, ∀ c ∈ e.relComps, validCompB c = true) :
    DiskFoldersInv
      (syncInitialImport sha detectKind clock env entries vaultPath pid w).2.mappingDisk := by
  unfold syncInitialImport
  cases hd : w.mappingDisk with
  | some m0 =>
    simp only [hd]
    by_cases hpid : m0.project_folder_id = pid
    case neg =>
      simp only [ne_eq, hpid, not_false_eq_true, if_true]
      intro mm hmm
      injection hmm with h4
      subst h4
      exact hdisk _ hd
    case pos =>
    subst hpid
    simp only [ne_eq, not_true_eq_false, if_false]
    have hm1 : MappingFilesFoldersInv
        { m0 with folders := ainsert "" m0.project_folder_id m0.folders } :=
      fun k fmk hk => alookup_ainsert_isSome _ _ _ _ (hdisk m0 hd k fmk hk)
    rcases hil : importLoop sha detectKind env w.fsFiles (clock w.tick) entries
        { m0 with folders := ainsert "" m0.project_folder_id m0.folders } emptySummary
      with e2 | ⟨mB, sB⟩
    · simp only [hil]
      intro mm hmm
      injection hmm with h4
      subst h4
      exact hdisk _ hd
    · simp only [hil]
      have hinvB := importLoop_inv sha detectKind env w.fsFiles (clock w.tick) entries
        { m0 with folders := ainsert "" m0.project_folder_id m0.folders } emptySummary hm1
        (by rw [alookup_ainsert_self]; rfl) hv mB sB hil
      intro mm hmm
      injection hmm with h4
      subst h4
      intro k fmk hk
      exact hinvB k fmk hk
  | none =>
    simp only [hd]
    rcases hs0 : syncInit clock w.tick vaultPath pid none with ⟨res, disk2, t2⟩
    have hsi := syncInit_inv clock w.tick vaultPath pid none (fun m hm => by cases hm)
    rw [hs0] at hsi
    cases res with
    | error e2 => exact hsi.1
    | ok m0 =>
      have hm0 := hsi.2 m0 rfl
      by_cases hpid : m0.project_folder_id = pid
      case neg =>
        simp only [ne_eq, hpid, not_false_eq_true, if_true]
        exact hsi.1
      case pos =>
      subst hpid
      simp only [ne_eq, not_true_eq_false, if_false]
      have hm1 : MappingFilesFoldersInv
          { m0 with folders := ainsert "" m0.project_folder_id m0.folders } :=
        fun k fmk hk => alookup_ainsert_isSome _ _ _ _ (hm0 k fmk hk)
      rcases hil : importLoop sha detectKind env w.fsFiles (clock t2) entries
          { m0 with folders := ainsert "" m0.project_folder_id m0.folders } emptySummary
        with e2 | ⟨mB, sB⟩
      · simp only [hil]
        exact hsi.1
      · simp only [hil]
        have hinvB := importLoop_inv sha detectKind env w.fsFiles (clock t2) entries
          { m0 with folders := ainsert "" m0.project_folder_id m0.folders } emptySummary hm1
          (by rw [alookup_ainsert_self]; rfl) hv mB sB hil
        intro mm hmm
        injection hmm with h4
        subst h4
        intro k fmk hk
        exact hinvB k fmk hk

/-- C2 counterexample: `sync_pull_once` does not maintain the files/folders
invariant. Starting from a freshly initialized mapping (which satisfies the
invariant), pulling one remote file that lives in a remote folder `a` records
`a/n.md` in `mapping.files` but never inserts `a` into `mapping.folders`: the
pull loop reads `mapping.folders` to resolve paths and writes only
`mapping.files`. -/
theorem C2_counterexample :
    DiskFoldersInv worldP.mappingDisk
    ∧ (syncPullOnce (constFun "H") (constClock "T") c2Env "/v" "P" worldP).2.mappingDisk =
        some ⟨1, "/v", "P", "", "T", "T", "",
          [("", "P")],
          [("a/n.md", ⟨"f1", "F", "note", "H", "2024-01-01T00:00:00Z"⟩)], []⟩
    ∧ ¬ MappingFilesFoldersInv
        ⟨1, "/v", "P", "", "T", "T", "",
          [("", "P")],
          [("a/n.md", ⟨"f1", "F", "note", "H", "2024-01-01T00:00:00Z"⟩)], []⟩ := by
  refine ⟨?_, by decide, ?_⟩
  · intro m hm k fmk hk
    have hm2 : some mappingP = some m := hm
    injection hm2 with h4
    subst h4
    simp [mappingP, alookup] at hk
  · intro hinv
    have h1 := hinv "a/n.md" ⟨"f1", "F", "note", "H", "2024-01-01T00:00:00Z"⟩ (by decide)
    rw [show parentOfPath "a/n.md" = "a" from by decide] at h1
    simp [alookup] at h1

/-- C2 (amended): the files/folders invariant — every files key's parent
folder path is a key of `mapping.folders` — holds after `sync_init` and is
preserved by `sync_one_path` and by `sync_initial_import` whenever the path
components involved are well-formed (non-empty, slash-free, not `.`, not
whitespace-only, as OS path components are); `sync_pull_once` does not
preserve it. -/
theorem C2_amended (sha detectKind : String → String) (clock : Nat → String) (env : PushEnv) :
    (∀ tick vp pid disk, DiskFoldersInv disk →
        DiskFoldersInv (syncInit clock tick vp pid disk).2.1)
    ∧ (∀ vaultPath rootComps absComps pid w,
        DiskFoldersInv w.mappingDisk →
        (∀ c ∈ absComps.drop rootComps.length, validCompB c = true) →
        DiskFoldersInv
          (syncOnePath sha detectKind clock env vaultPath rootComps absComps pid
            w).world.mappingDisk)
    ∧ (∀ entries vaultPath pid w,
        DiskFoldersInv w.mappingDisk →
        (∀ e ∈ entries, ∀ c ∈ e.relComps, validCompB c = true) →
        DiskFoldersInv
          (syncInitialImport sha detectKind clock env entries vaultPath pid w).2.mappingDisk) :=
  ⟨fun tick vp pid disk hdisk => (syncInit_inv clock tick vp pid disk hdisk).1,
    fun vaultPath rootComps absComps pid w hdisk hv =>
      syncOnePath_inv sha detectKind clock env vaultPath rootComps absComps pid w hdisk hv,
    fun entries vaultPath pid w hdisk hv =>
      syncInitialImport_inv sha detectKind clock env entries vaultPath pid w hdisk hv⟩

/-- Witness for C2 (amended) at a concrete push of `a/n.md` into an empty
vault with a fresh mapping. -/
theorem C2_witness :
    DiskFoldersInv
      (syncOnePath (constFun "H") (constFun "note") (constClock "T") pushEnvA "/v"
        ["v"] ["v", "a", "n.md"] "P" worldP).world.mappingDisk :=
  (C2_amended (constFun "H") (constFun "note") (constClock "T") pushEnvA).2.1
    "/v" ["v"] ["v", "a", "n.md"] "P" worldP
    (fun m hm => by
      have hm2 : some mappingP = some m := hm
      injection hm2 with h4
      subst h4
      intro k fmk hk
      simp [mappingP, alookup] at hk)
    (fun c hcm => by
      have hcm2 : c ∈ ["a", "n.md"] := by simpa using hcm
      rcases List.mem_cons.mp hcm2 with h | h
      · subst h; decide
      · rcases List.mem_cons.mp h with h2 | h2
        · subst h2; decide
        · exact absurd h2 (List.not_mem_nil c))

end Diregram
